import Mathlib

/-!
Verification development for the RamSleuth core: the heuristic die-resolution
engine (RamSleuth_DB.py) and the decoder-output parser (ramsleuth_pkg/parser.py),
shallowly embedded in Lean.  Strings are modelled over explicit character
lists; Python numbers are modelled as integers and rationals; dictionaries
are modelled as insertion-ordered association lists.
-/

namespace RamSleuth

/-! ## Python string primitives

These model the exact Python `str` operations that the source uses:
`strip`, `lower`, `upper`, substring containment, `startswith`,
`split`, `splitlines`, and so on.  Characters are compared by code point,
which matches CPython string comparison.  Whitespace is modelled as the
ASCII whitespace set recognised by `str.strip()` and `\s`.
-/

/-- ASCII whitespace, as recognised by Python `str.strip()` and the regex
class backslash-s for the inputs this program sees. -/
def pyIsSpace (c : Char) : Bool :=
  c = ' ' || c = '\t' || c = '\n' || c = '\x0d' || c = '\x0b' || c = '\x0c'

/-- Python `str.lstrip()` on a character list. -/
def lstripChars (l : List Char) : List Char := l.dropWhile pyIsSpace

/-- Python `str.rstrip()` on a character list. -/
def rstripChars (l : List Char) : List Char :=
  (l.reverse.dropWhile pyIsSpace).reverse

/-- Python `str.strip()` on a character list. -/
def stripChars (l : List Char) : List Char := rstripChars (lstripChars l)

/-- Python `str.rstrip(chars)` for a single unwanted character. -/
def rstripCharsOf (bad : Char) (l : List Char) : List Char :=
  (l.reverse.dropWhile (fun c => c = bad)).reverse

/-- Python `str.strip()` at the `String` level. -/
def pyStrip (s : String) : String := String.mk (stripChars s.data)

/-- Python `str.lower()` (ASCII case folding suffices for this program). -/
def pyLower (s : String) : String := String.mk (s.data.map Char.toLower)

/-- Python `str.upper()` (ASCII case folding suffices for this program). -/
def pyUpper (s : String) : String := String.mk (s.data.map Char.toUpper)

/-- Does `pat` occur at the start of `l`?  Python `str.startswith`. -/
def startsWithChars (pat l : List Char) : Bool :=
  List.isPrefixOf pat l

/-- Does `pat` occur as a contiguous substring of `l`?  Python `in`. -/
def containsSub (pat : List Char) : List Char → Bool
  | [] => List.isPrefixOf pat []
  | c :: t => List.isPrefixOf pat (c :: t) || containsSub pat t

/-- Python `pat in s` on strings. -/
def pyContains (s pat : String) : Bool := containsSub pat.data s.data

/-- Python `s.startswith(pat)` on strings. -/
def pyStartsWith (s pat : String) : Bool := startsWithChars pat.data s.data

/-- Split a character list on a single separator character; always returns
at least one (possibly empty) piece, like Python `str.split(sep)`. -/
def splitOnCharAux (sep : Char) : List Char → List Char → List (List Char)
  | [], acc => [acc.reverse]
  | c :: t, acc =>
      if c = sep then acc.reverse :: splitOnCharAux sep t []
      else splitOnCharAux sep t (c :: acc)

/-- Python `str.split(sep)` for a one-character separator. -/
def splitOnChar (sep : Char) (l : List Char) : List (List Char) :=
  splitOnCharAux sep l []

/-- Python `str.splitlines()`, modelling newline-terminated text: split on
the newline character and drop a final empty piece produced by a trailing
newline. -/
def pySplitLines (s : String) : List String :=
  match s.data with
  | [] => []
  | l =>
      let pieces := splitOnChar '\n' l
      let pieces := if pieces.getLast? = some [] then pieces.dropLast else pieces
      pieces.map String.mk

/-- Helper for `splitWS`: scan with the current (reversed) word as
accumulator, emitting a word at each whitespace boundary. -/
def splitWSAux : List Char → List Char → List (List Char)
  | [], acc => if acc = [] then [] else [acc.reverse]
  | c :: t, acc =>
      if pyIsSpace c then
        if acc = [] then splitWSAux t [] else acc.reverse :: splitWSAux t []
      else splitWSAux t (c :: acc)

/-- Python `str.split()` with no argument: split on runs of whitespace,
discarding empty pieces. -/
def splitWS (l : List Char) : List (List Char) := splitWSAux l []

/-- Find the index of the first occurrence of `pat` in `l`, if any. -/
def findSubIdx (pat : List Char) : List Char → Option Nat
  | [] => if pat = [] then some 0 else none
  | c :: t =>
      if List.isPrefixOf pat (c :: t) then some 0
      else (findSubIdx pat t).map (· + 1)

/-- Python `s.split(sep, 1)` for a two-character separator string: split on
the first occurrence only.  Returns the single-piece list when the separator
does not occur. -/
def splitOnce (sep : List Char) (l : List Char) : List (List Char) :=
  match findSubIdx sep l with
  | none => [l]
  | some i => [l.take i, l.drop (i + sep.length)]

/-- Python ascending string comparison: lexicographic on code points. -/
def charsLt : List Char → List Char → Bool
  | [], [] => false
  | [], _ :: _ => true
  | _ :: _, [] => false
  | a :: s, b :: t =>
      if a.toNat < b.toNat then true
      else if b.toNat < a.toNat then false
      else charsLt s t

/-- Python `a < b` on strings. -/
def pyStrLt (a b : String) : Bool := charsLt a.data b.data

/-- Insert a string into an ascending sorted list (strictly before the first
larger element). -/
def insertAsc (s : String) : List String → List String
  | [] => [s]
  | x :: t => if pyStrLt s x then s :: x :: t else x :: insertAsc s t

/-- Ascending insertion sort on strings, modelling Python `sorted`. -/
def sortAsc : List String → List String
  | [] => []
  | x :: t => insertAsc x (sortAsc t)

/-- Collapse adjacent duplicates of a sorted list. -/
def destutter : List String → List String
  | [] => []
  | [x] => [x]
  | x :: y :: t => if x = y then destutter (y :: t) else x :: destutter (y :: t)

/-- Python `sorted(set(l))`: the distinct values of `l` in ascending
lexicographic order. -/
def sortedDedup (l : List String) : List String := destutter (sortAsc l)

/-- Python `s.endswith(pat)`. -/
def pyEndsWith (s pat : String) : Bool :=
  startsWithChars pat.data.reverse s.data.reverse

/-! ## Python values and dictionaries

The loosely-typed dictionaries of the source are modelled as
insertion-ordered association lists from strings to `PVal`.  Python ints are
`Int`, Python floats are modelled as exact rationals (no claim in this
development depends on floating-point rounding), and strings are `String`.
Lookup takes the first binding; the dictionaries built by this program have
unique keys.
-/

/-- A Python value as stored in the record / rule dictionaries. -/
inductive PVal where
  | pint (n : Int)
  | pnum (q : ℚ)
  | pstr (s : String)
deriving DecidableEq, Repr

/-- The rational `q` scaled by `10 ^ k` (stated via `mkRat` so that it
evaluates by kernel reduction). -/
def mulPow10 (q : ℚ) (k : Nat) : ℚ := mkRat (q.num * (10 : Int) ^ k) q.den

/-- Decimal rendering of a rational whose denominator divides a power of
ten, used to model Python `str(float)` on the terminating decimals this
program manipulates. -/
def decimalRepr (q : ℚ) : String :=
  match (List.range 41).find? (fun k => (mulPow10 q k).den = 1) with
  | some k =>
      let m := (mulPow10 q k).num
      let digits := toString m.natAbs
      let digits := String.mk (List.replicate (k + 1 - digits.length) '0') ++ digits
      let point := digits.length - k
      (if m < 0 then "-" else "") ++
        String.mk (digits.data.take point) ++ "." ++ String.mk (digits.data.drop point)
  | none => toString q.num ++ "/" ++ toString q.den

/-- Python `str(value)`. -/
def pvStr : PVal → String
  | .pint n => toString n
  | .pnum q => decimalRepr q
  | .pstr s => s

/-- Python truthiness of a value: zero numbers and the empty string are
falsy. -/
def pvTruthy : PVal → Bool
  | .pint n => n ≠ 0
  | .pnum q => q ≠ 0
  | .pstr s => s ≠ ""

/-- Python equality between dictionary values: strings compare as strings,
numbers compare numerically (an int equals the float of the same value),
and a string never equals a number. -/
def pvEq : PVal → PVal → Bool
  | .pstr a, .pstr b => a = b
  | .pstr _, _ => false
  | _, .pstr _ => false
  | a, b =>
      (match a with | .pint n => (n : ℚ) | .pnum q => q | .pstr _ => 0) =
      (match b with | .pint n => (n : ℚ) | .pnum q => q | .pstr _ => 0)

/-- Python `float(s)` on the decimal literals this program sees: optional
sign, then digits with an optional fractional part (scientific notation is
not needed by any input this development evaluates). -/
def pyParseFloat (s : String) : Option ℚ :=
  let l := stripChars s.data
  let (neg, l) :=
    match l with
    | '-' :: t => (true, t)
    | '+' :: t => (false, t)
    | t => (false, t)
  let intPart := l.takeWhile Char.isDigit
  let rest := l.dropWhile Char.isDigit
  let signed (q : ℚ) : ℚ := if neg then -q else q
  match rest with
  | [] =>
      if intPart = [] then none
      else some (signed (intPart.foldl (fun a c => 10 * a + (c.toNat - 48)) 0 : Nat))
  | '.' :: frac =>
      if frac.all Char.isDigit ∧ ¬(intPart = [] ∧ frac = []) then
        some (signed
          (mkRat
            ((intPart.foldl (fun a c => 10 * a + (c.toNat - 48)) 0 : Nat) *
                10 ^ frac.length +
              (frac.foldl (fun a c => 10 * a + (c.toNat - 48)) 0 : Nat))
            (10 ^ frac.length)))
      else none
  | _ => none

/-- Python `float(value)` as used inside `is_match`, returning `none` where
the source would raise and be caught. -/
def pvFloat : PVal → Option ℚ
  | .pint n => some (n : ℚ)
  | .pnum q => some q
  | .pstr s => pyParseFloat s

/-- A record / rule dictionary. -/
abbrev PDict : Type := List (String × PVal)

/-- Dictionary lookup, Python `d.get(k)`. -/
def dGet (d : PDict) (k : String) : Option PVal :=
  (d.find? (fun p => p.1 = k)).map (·.2)

/-- Dictionary lookup with default, Python `d.get(k, v)`. -/
def dGetD (d : PDict) (k : String) (v : PVal) : PVal := (dGet d k).getD v

/-- The Python `or` chain `d.get(k1) or d.get(k2) or ...`: the first truthy
lookup; when every lookup is falsy, the raw value of the last lookup (which
may be a falsy value or a missing key). -/
def orChain (d : PDict) : List String → Option PVal
  | [] => none
  | [k] => dGet d k
  | k :: t =>
      match dGet d k with
      | some v => if pvTruthy v then some v else orChain d t
      | none => orChain d t

/-! ## Heuristic resolver (RamSleuth_DB.py)

`is_match` and `find_die_type` are direct translations of the functions of
the same names.  A validated database entry is a dictionary guaranteed (by
`load_database`) to hold an integer `priority` and a non-blank string
`die_type`; `DbEntry` records those two fields, the optional string `notes`
field, and the full constraint dictionary.
-/

/-- One validated rule of the die database: the `priority` and `die_type`
values that `load_database` guarantees, the optional `notes` string, and the
rule dictionary holding the constraint keys that `is_match` probes. -/
structure DbEntry where
  priority : Int
  die_type : String
  notes : Option String
  fields : PDict
deriving DecidableEq

/-- Equality comparison against an optional record value, as Python
evaluates `dimm.get(key) != entry[key]` (a missing key compares unequal to
every value). -/
def optEq (a : Option PVal) (b : PVal) : Bool :=
  match a with
  | none => false
  | some v => pvEq v b

/-- `is_match` from RamSleuth_DB.py: does the normalized DIMM record satisfy
every constraint present on the rule dictionary?  Each block below mirrors
one constraint block of the source, in source order; missing constraint
keys are vacuously true. -/
def is_match (dimm : PDict) (entry : PDict) : Bool :=
  -- generation: exact match
  (match dGet entry "generation" with
   | none => true
   | some v => optEq (dGet dimm "generation") v) &&
  -- manufacturer: substring or exact match (case-insensitive)
  (match dGet entry "manufacturer" with
   | none => true
   | some v =>
       pyContains (pyLower (pvStr (dGetD dimm "manufacturer" (.pstr ""))))
         (pyLower (pvStr v))) &&
  -- dram_mfg: exact, case-insensitive
  (match dGet entry "dram_mfg" with
   | none => true
   | some v =>
       match dGet dimm "dram_mfg" with
       | some (.pstr s) => pyLower s = pyLower (pvStr v)
       | _ => false) &&
  -- module_gb: numeric equality (tolerate int/float)
  (match dGet entry "module_gb" with
   | none => true
   | some v =>
       match dGet dimm "module_gb" with
       | none => false
       | some w =>
           match pvFloat w, pvFloat v with
           | some a, some b => a = b
           | _, _ => false) &&
  -- module_ranks: exact
  (match dGet entry "module_ranks" with
   | none => true
   | some v => optEq (dGet dimm "module_ranks") v) &&
  -- chip_org: exact
  (match dGet entry "chip_org" with
   | none => true
   | some v => optEq (dGet dimm "chip_org") v) &&
  -- part_number_contains: case-insensitive substring in module_part_number
  (match dGet entry "part_number_contains" with
   | none => true
   | some v =>
       pyContains (pyLower (pvStr (dGetD dimm "module_part_number" (.pstr ""))))
         (pyLower (pvStr v))) &&
  -- part_number_exact: case-insensitive equality
  (match dGet entry "part_number_exact" with
   | none => true
   | some v =>
       match dGet dimm "module_part_number" with
       | some (.pstr s) => pyLower s = pyLower (pvStr v)
       | _ => false) &&
  -- timings_xmp: exact or substring match
  (match dGet entry "timings_xmp" with
   | none => true
   | some v =>
       let expected := pvStr v
       let actual := pvStr (dGetD dimm "timings_xmp" (.pstr ""))
       actual = expected || pyContains actual expected) &&
  -- timings_jdec: exact match
  (match dGet entry "timings_jdec" with
   | none => true
   | some v =>
       match dGet dimm "timings_jdec" with
       | some (.pstr s) => s = pvStr v
       | _ => false) &&
  -- voltage_xmp: compare as strings
  (match dGet entry "voltage_xmp" with
   | none => true
   | some v =>
       match dGet dimm "voltage_xmp" with
       | none => false
       | some w => pvStr w = pvStr v) &&
  -- corsair_version: prefix semantics when the rule value ends with a dot
  (match dGet entry "corsair_version" with
   | none => true
   | some v =>
       let expected := pvStr v
       let actual := pvStr (dGetD dimm "corsair_version" (.pstr ""))
       if pyEndsWith expected "." then pyStartsWith actual expected
       else actual = expected) &&
  -- gskill_sticker_code: case-insensitive substring
  (match dGet entry "gskill_sticker_code" with
   | none => true
   | some v =>
       pyContains (pyLower (pvStr (dGetD dimm "gskill_sticker_code" (.pstr ""))))
         (pyLower (pvStr v))) &&
  -- crucial_sticker_suffix: exact, case-insensitive
  (match dGet entry "crucial_sticker_suffix" with
   | none => true
   | some v =>
       match dGet dimm "crucial_sticker_suffix" with
       | some (.pstr s) => pyLower s = pyLower (pvStr v)
       | _ => false) &&
  -- hynix_ic_parse_8th: case-insensitive comparison of the 8th character
  -- of the IC part number string
  (match dGet entry "hynix_ic_parse_8th" with
   | none => true
   | some v =>
       let expected := pyUpper (pvStr v)
       match orChain dimm
           ["hynix_ic_part_number", "Hynix IC Part Number", "hynix_ic_pn"] with
       | some (.pstr ic) =>
           8 ≤ ic.data.length &&
             String.mk [(ic.data.getD 7 ' ').toUpper] = expected
       | _ => false)

/-- One step of the selection loop of `find_die_type`: fold state is the
best priority seen so far together with the list of matching entries tied
at that priority, in encounter order. -/
def matchStep (dimm : PDict) (s : Option Int × List DbEntry) (e : DbEntry) :
    Option Int × List DbEntry :=
  if is_match dimm e.fields then
    match s.1 with
    | none => (some e.priority, [e])
    | some bp =>
        if bp < e.priority then (some e.priority, [e])
        else if e.priority = bp then (s.1, s.2 ++ [e])
        else s
  else s

/-- The selection loop of `find_die_type`: scan every entry of the database
(no early exit), maintaining the best priority and its tied matches. -/
def scanBest (dimm : PDict) (db : List DbEntry) : Option Int × List DbEntry :=
  db.foldl (matchStep dimm) (none, [])

/-- The combined notes of same-`die_type` tied matches: each non-blank
`notes` string, stripped, joined by a bar separator. -/
def combinedNotes (best : List DbEntry) : Option String :=
  let ns := best.filterMap (fun e =>
    match e.notes with
    | some n => if pyStrip n ≠ "" then some (pyStrip n) else none
    | none => none)
  if ns = [] then none else some (String.intercalate " | " ns)

/-- `find_die_type` from RamSleuth_DB.py: resolve a die type for a
normalized record against a priority-sorted database. -/
def find_die_type (dimm : PDict) (db : List DbEntry) : String × Option String :=
  match (scanBest dimm db).2 with
  | [] => ("Unknown", some "No heuristic match found in database.")
  | [e] => (e.die_type, e.notes)
  | best =>
      let die_types := sortedDedup (best.map DbEntry.die_type)
      if die_types.length = 1 then
        (die_types.headD "", combinedNotes best)
      else
        ("Ambiguous",
          some ("Multiple matching heuristics at same priority: " ++
            String.intercalate ", " die_types))

/-- Specification helper: the maximum priority among database entries that
match the record, `none` when nothing matches.  Used to characterise the
selection loop. -/
def maxMatchPrio (dimm : PDict) : List DbEntry → Option Int
  | [] => none
  | e :: t =>
      let r := maxMatchPrio dimm t
      if is_match dimm e.fields then
        some (match r with | none => e.priority | some p => max e.priority p)
      else r

/-- Specification helper: the matching entries of priority `p`, in database
order. -/
def bestAt (dimm : PDict) (p : Int) (l : List DbEntry) : List DbEntry :=
  l.filter (fun e => is_match dimm e.fields && e.priority == p)

/-! ## Rule database loader (load_database in RamSleuth_DB.py)

The JSON document handed to `load_database` is modelled by `JVal`
(null / int / float / string / array / object; JSON booleans play no role
in any claim and are omitted from the modelled universe).  The structural
`ValueError`s of the source become the distinguishable constructors of
`LoadErr`. -/

/-- A JSON-like document value. -/
inductive JVal where
  | jnull
  | jint (n : Int)
  | jnum (q : ℚ)
  | jstr (s : String)
  | jarr (l : List JVal)
  | jobj (fields : List (String × JVal))

/-- A JSON object: ordered fields (keys unique after deserialization). -/
abbrev JObj : Type := List (String × JVal)

/-- The distinguishable structural errors of `load_database`, one per
`ValueError` site of the source. -/
inductive LoadErr where
  | notList
  | entryNotObject (idx : Nat)
  | missingPriority (idx : Nat)
  | priorityNotInt (idx : Nat)
  | missingDieType (idx : Nat)
  | dieTypeInvalid (idx : Nat)
deriving DecidableEq

/-- Object field lookup. -/
def jGet (o : JObj) (k : String) : Option JVal :=
  (o.find? (fun p => p.1 = k)).map (·.2)

/-- The per-entry validation loop of `load_database`: each element must be
an object with an integer `priority` and a string `die_type` that is
non-blank (its `strip()` is non-empty); the whole entry is preserved. -/
def validateEntries : Nat → List JVal → Except LoadErr (List JObj)
  | _, [] => .ok []
  | i, x :: t =>
      match x with
      | .jobj f =>
          match jGet f "priority" with
          | none => .error (.missingPriority i)
          | some (.jint _) =>
              match jGet f "die_type" with
              | none => .error (.missingDieType i)
              | some (.jstr s) =>
                  if pyStrip s = "" then .error (.dieTypeInvalid i)
                  else (validateEntries (i + 1) t).map (f :: ·)
              | some _ => .error (.dieTypeInvalid i)
          | some _ => .error (.priorityNotInt i)
      | _ => .error (.entryNotObject i)

/-- The sort key of `load_database`: the validated integer `priority`. -/
def priorityOf (f : JObj) : Int :=
  match jGet f "priority" with
  | some (.jint n) => n
  | _ => 0

/-- Stable descending insertion: the new entry goes after every existing
entry of greater-or-equal priority.  Models Python
`list.sort(key=priority, reverse=True)`, which is stable. -/
def insertByPrio (f : JObj) : List JObj → List JObj
  | [] => [f]
  | x :: t =>
      if priorityOf f ≤ priorityOf x then x :: insertByPrio f t
      else f :: x :: t

/-- Stable sort by descending priority. -/
def sortByPrioDesc (l : List JObj) : List JObj :=
  l.foldl (fun acc f => insertByPrio f acc) []

/-- `load_database` from RamSleuth_DB.py, applied to an already-deserialized
document (file access and JSON decoding are outside the core): validate the
structure and sort the entries by descending priority, stably. -/
def load_database (doc : JVal) : Except LoadErr (List JObj) :=
  match doc with
  | .jarr l => (validateEntries 0 l).map sortByPrioDesc
  | _ => .error .notList

/-! ## Field normalizer (RamSleuth_DB.py)

Direct translations of `_normalize_generation`, `_normalize_manufacturer`,
`_normalize_dram_mfg`, `_parse_module_gb`, `_normalize_module_ranks`,
`_normalize_chip_org`, `parse_xmp_from_part_number`, `_extract_first_str`
and `normalize_dimm_data`.  The handful of regular expressions the source
uses are implemented as explicit character scans with the same leftmost
match semantics. -/

/-- The natural number denoted by a run of decimal digit characters. -/
def digitsNat (l : List Char) : Nat :=
  l.foldl (fun a c => 10 * a + (c.toNat - 48)) 0

/-- The rational denoted by an integer digit run plus an optional
fractional digit run (stated via `mkRat` so that concrete values evaluate
by kernel reduction). -/
def decimalVal (intPart frac : List Char) : ℚ :=
  mkRat (digitsNat intPart * 10 ^ frac.length + digitsNat frac) (10 ^ frac.length)

/-- Generic leftmost-match search: try the positional matcher at every
suffix, left to right, like `re.search`. -/
def searchIn (f : List Char → Option α) : List Char → Option α
  | [] => f []
  | c :: t =>
      match f (c :: t) with
      | some r => some r
      | none => searchIn f t

/-- Positional match for the regex `\s*(\d+(?:\.\d+)?)\s*U\s*` anchored at
both ends (`re.match` ... `$`), for a unit word `U`: used by
`_parse_module_gb` for its MB and GB patterns.  Returns the number. -/
def matchNumUnit (unit : List Char) (l : List Char) : Option ℚ :=
  let l := l.dropWhile pyIsSpace
  let intPart := l.takeWhile Char.isDigit
  let rest := l.dropWhile Char.isDigit
  if intPart = [] then none
  else
    let (frac, rest) :=
      match rest with
      | '.' :: t =>
          if (t.headD ' ').isDigit then
            (t.takeWhile Char.isDigit, t.dropWhile Char.isDigit)
          else ([], '.' :: t)
      | r => ([], r)
    let rest := rest.dropWhile pyIsSpace
    if startsWithChars unit rest ∧ (rest.drop unit.length).all pyIsSpace then
      some (decimalVal intPart frac)
    else none

/-- `re.fullmatch` of the bare-number pattern `\d+(?:\.\d+)?`. -/
def matchBareNum (l : List Char) : Option ℚ :=
  let intPart := l.takeWhile Char.isDigit
  let rest := l.dropWhile Char.isDigit
  if intPart = [] then none
  else
    match rest with
    | [] => some (decimalVal intPart [])
    | '.' :: t =>
        if t ≠ [] ∧ t.all Char.isDigit then some (decimalVal intPart t)
        else none
    | _ => none

/-- The `core` token computed by `_normalize_generation` (and the DDR
token in the sense of the specification): the first whitespace-separated
token of the stripped, uppercased value, with dash separators removed. -/
def ddrToken (v : PVal) : String :=
  String.mk (((splitWS (pyUpper (pyStrip (pvStr v))).data).headD []).filter
    (fun c => c ≠ '-'))

/-- `_normalize_generation`: keep only a leading DDR token, uppercased,
with dashes removed, mapped onto the DDR1..DDR5 vocabulary (a bare
`DDR` token counts as DDR1). -/
def _normalize_generation : Option PVal → Option String
  | none => none
  | some v =>
      if pvTruthy v then
        if pyStartsWith (pyUpper (pyStrip (pvStr v))) "DDR" then
          if ddrToken v = "DDR" ∨ ddrToken v = "DDR1" then some "DDR1"
          else if ddrToken v = "DDR2" then some "DDR2"
          else if ddrToken v = "DDR3" then some "DDR3"
          else if ddrToken v = "DDR4" then some "DDR4"
          else if ddrToken v = "DDR5" then some "DDR5"
          else none
        else none
      else none

/-- `_normalize_manufacturer`: trim, keep non-blank values as-is. -/
def _normalize_manufacturer (value : Option String) : Option String :=
  match value with
  | none => none
  | some s0 =>
      if s0 = "" then none
      else
        let s := pyStrip s0
        if s = "" then none else some s

/-- `_normalize_dram_mfg`: trim, then canonicalize the known DRAM vendor
aliases by case-insensitive substring detection; unknown vendors pass
through trimmed. -/
def _normalize_dram_mfg (value : Option String) : Option String :=
  match value with
  | none => none
  | some s0 =>
      if s0 = "" then none
      else
        let s := pyStrip s0
        if s = "" then none
        else
          let lower := pyLower s
          if pyContains lower "sk" ∧ pyContains lower "hynix" then some "SK Hynix"
          else if pyContains lower "hynix" then some "SK Hynix"
          else if pyContains lower "samsung" then some "Samsung"
          else if pyContains lower "micron" then some "Micron"
          else if pyContains lower "nanya" then some "Nanya"
          else some s

/-- `_parse_module_gb`: numeric values pass through; strings accept
`<n> MB` (divided by 1024), `<n> GB`, or a bare number taken as GB.  The
division by 1024 is exact and stated via `mkRat` (its value equals
`mb / 1024`, see `mkRat_div_helper`). -/
def _parse_module_gb (value : Option PVal) : Option ℚ :=
  match value with
  | none => none
  | some (.pint n) => some (n : ℚ)
  | some (.pnum q) => some q
  | some (.pstr s0) =>
      let s := pyUpper (pyStrip s0)
      if s = "" then none
      else
        match matchNumUnit "MB".data s.data with
        | some mb => some (mkRat mb.num (mb.den * 1024))
        | none =>
            match matchNumUnit "GB".data s.data with
            | some gb => some gb
            | none => matchBareNum s.data

/-- `_normalize_module_ranks`: canonical `<d>R`, rank words, or a bare
digit string with `R` appended. -/
def _normalize_module_ranks (value : Option PVal) : Option String :=
  match value with
  | none => none
  | some v =>
      if ¬pvTruthy v then none
      else
        let s := pyUpper (pyStrip (pvStr v))
        if s = "" then none
        else if s.data.length = 2 ∧ (s.data.headD ' ').isDigit ∧ s.data.getD 1 ' ' = 'R' then
          some s
        else if s = "SINGLE" ∨ s = "SINGLE RANK" then some "1R"
        else if s = "DUAL" ∨ s = "DUAL RANK" then some "2R"
        else if s = "QUAD" ∨ s = "QUAD RANK" then some "4R"
        else if s.data ≠ [] ∧ s.data.all Char.isDigit then some (s ++ "R")
        else none

/-- Positional match for `(\d+)\s*bits?`: a digit run, optional spaces,
then the word `bit`. -/
def matchBitsAt (l : List Char) : Option (List Char) :=
  let d := l.takeWhile Char.isDigit
  if d = [] then none
  else
    let rest := (l.dropWhile Char.isDigit).dropWhile pyIsSpace
    if startsWithChars "bit".data rest then some d else none

/-- `_normalize_chip_org`: `<n> bits` becomes `x<n>`; an `x<n>` form passes
through lowercased. -/
def _normalize_chip_org (value : Option PVal) : Option String :=
  match value with
  | none => none
  | some v =>
      if ¬pvTruthy v then none
      else
        let s := pyLower (pyStrip (pvStr v))
        if s = "" then none
        else
          match searchIn matchBitsAt s.data with
          | some d => some ("x" ++ String.mk d)
          | none =>
              match s.data with
              | 'x' :: t => if t ≠ [] ∧ t.all Char.isDigit then some s else none
              | _ => none

/-- Positional match for `(\d{4})-(\d{2})-(\d{2})-(\d{2})`, rendered back
as `freq-t1-t2-t3`. -/
def matchFullTimingAt (l : List Char) : Option String :=
  let g1 := l.take 4
  let l1 := l.drop 4
  if g1.length = 4 ∧ g1.all Char.isDigit ∧ l1.headD ' ' = '-' then
    let g2 := (l1.drop 1).take 2
    let l2 := (l1.drop 1).drop 2
    if g2.length = 2 ∧ g2.all Char.isDigit ∧ l2.headD ' ' = '-' then
      let g3 := (l2.drop 1).take 2
      let l3 := (l2.drop 1).drop 2
      if g3.length = 2 ∧ g3.all Char.isDigit ∧ l3.headD ' ' = '-' then
        let g4 := (l3.drop 1).take 2
        if g4.length = 2 ∧ g4.all Char.isDigit then
          some (String.mk g1 ++ "-" ++ String.mk g2 ++ "-" ++
            String.mk g3 ++ "-" ++ String.mk g4)
        else none
      else none
    else none
  else none

/-- Positional match for `(\d{4})C(\d{2})`, rendered as `freq-cl`. -/
def matchFreqClAt (l : List Char) : Option String :=
  let g1 := l.take 4
  let l1 := l.drop 4
  if g1.length = 4 ∧ g1.all Char.isDigit ∧ l1.headD ' ' = 'C' then
    let g2 := (l1.drop 1).take 2
    if g2.length = 2 ∧ g2.all Char.isDigit then
      some (String.mk g1 ++ "-" ++ String.mk g2)
    else none
  else none

/-- `parse_xmp_from_part_number`: prefer the four-field dash pattern, then
the frequency-plus-CAS pattern; `none` when neither occurs. -/
def parse_xmp_from_part_number (part_number : Option String) : Option String :=
  match part_number with
  | none => none
  | some s =>
      if s = "" then none
      else
        match searchIn matchFullTimingAt s.data with
        | some r => some r
        | none => searchIn matchFreqClAt s.data

/-- `_extract_first_str`: the first key whose value is truthy and non-blank
after stripping, returned stripped. -/
def _extract_first_str (d : PDict) : List String → Option String
  | [] => none
  | k :: t =>
      match dGet d k with
      | some v =>
          if pvTruthy v then
            let val := pyStrip (pvStr v)
            if val ≠ "" then some val else _extract_first_str d t
          else _extract_first_str d t
      | none => _extract_first_str d t

/-- Leading-decimal-number prefix, the regex `^(\d+(?:\.\d+)?)` used by the
voltage normalizations: `none` when the string does not start with a
digit. -/
def leadingNum (l : List Char) : Option (List Char) :=
  let d := l.takeWhile Char.isDigit
  if d = [] then none
  else
    match l.dropWhile Char.isDigit with
    | '.' :: t =>
        if (t.headD ' ').isDigit then some (d ++ '.' :: t.takeWhile Char.isDigit)
        else some d
    | _ => some d

/-- The `generation` block of `normalize_dimm_data`: the `or` chain of the
three source keys, each run through `_normalize_generation`. -/
def normGenValue (dimm : PDict) : Option String :=
  (_normalize_generation (dGet dimm "generation")).orElse (fun _ =>
    (_normalize_generation (dGet dimm "Memory Type")).orElse (fun _ =>
      _normalize_generation (dGet dimm "DRAM Generation")))

/-- The emitted `generation` binding, if any. -/
def normGenField (dimm : PDict) : PDict :=
  match normGenValue dimm with
  | some g => [("generation", .pstr g)]
  | none => []

/-- The emitted `manufacturer` binding, if any. -/
def normManufacturerField (dimm : PDict) : PDict :=
  match _normalize_manufacturer
      (_extract_first_str dimm
        ["Module Manufacturer", "Manufacturer", "manufacturer", "Brand",
         "Module Vendor"]) with
  | some m => [("manufacturer", .pstr m)]
  | none => []

/-- The emitted `dram_mfg` binding, if any. -/
def normDramMfgField (dimm : PDict) : PDict :=
  match _normalize_dram_mfg
      (_extract_first_str dimm
        ["DRAM Manufacturer", "DRAM MFG", "IC Manufacturer", "dram_mfg"]) with
  | some m => [("dram_mfg", .pstr m)]
  | none => []

/-- The source-key `or` chain feeding `_parse_module_gb`. -/
def moduleGbSource (dimm : PDict) : Option PVal :=
  orChain dimm
    ["module_gb", "Module Capacity", "Module Capacity (MB)", "Size", "Module Size"]

/-- The emitted `module_gb` binding, if any: an int when the parsed value
is integral, otherwise a float. -/
def normModuleGbField (dimm : PDict) : PDict :=
  match _parse_module_gb (moduleGbSource dimm) with
  | some q => [("module_gb", if q.den = 1 then .pint q.num else .pnum q)]
  | none => []

/-- The emitted `module_ranks` binding, if any. -/
def normRanksField (dimm : PDict) : PDict :=
  match _normalize_module_ranks
      (orChain dimm ["module_ranks", "Ranks", "Rank", "rank", "Module Ranks"]) with
  | some r => [("module_ranks", .pstr r)]
  | none => []

/-- The emitted `chip_org` binding, if any. -/
def normChipOrgField (dimm : PDict) : PDict :=
  match _normalize_chip_org
      (orChain dimm
        ["chip_org", "SDRAM Device Width", "Chip Organization", "Organization"]) with
  | some c => [("chip_org", .pstr c)]
  | none => []

/-- The extracted part number of `normalize_dimm_data`. -/
def normPartNumber (dimm : PDict) : Option String :=
  _extract_first_str dimm
    ["Part Number", "Module Part Number", "module_part_number", "PartNumber", "P/N"]

/-- The emitted `module_part_number` binding, if any. -/
def normPartNumberField (dimm : PDict) : PDict :=
  match normPartNumber dimm with
  | some p => [("module_part_number", .pstr p)]
  | none => []

/-- The emitted vendor sticker bindings: copied through stripped when
present, truthy, and non-blank. -/
def normStickerFields (dimm : PDict) : PDict :=
  ["gskill_sticker_code", "corsair_version", "crucial_sticker_suffix",
   "hynix_ic_part_number"].filterMap (fun k =>
    match dGet dimm k with
    | some v =>
        if pvTruthy v then
          let val := pyStrip (pvStr v)
          if val ≠ "" then some (k, PVal.pstr val) else none
        else none
    | none => none)

/-- The `timings_xmp` string of `normalize_dimm_data`: the explicit field
when truthy, otherwise derived from the part number. -/
def normTimingsXmpValue (dimm : PDict) : Option String :=
  match dGet dimm "timings_xmp" with
  | some v =>
      if pvTruthy v then some (pyStrip (pvStr v))
      else
        match normPartNumber dimm with
        | some p => parse_xmp_from_part_number (some p)
        | none => none
  | none =>
      match normPartNumber dimm with
      | some p => parse_xmp_from_part_number (some p)
      | none => none

/-- The emitted `timings_xmp` binding, if any. -/
def normTimingsXmpField (dimm : PDict) : PDict :=
  match normTimingsXmpValue dimm with
  | some t => if t ≠ "" then [("timings_xmp", .pstr t)] else []
  | none => []

/-- The emitted `timings_jdec` binding, if any. -/
def normTimingsJdecField (dimm : PDict) : PDict :=
  match orChain dimm ["timings_jdec", "timings_jedec", "JEDEC Timings"] with
  | some v =>
      if pvTruthy v then
        let t := pyStrip (pvStr v)
        if t ≠ "" then [("timings_jdec", .pstr t)] else []
      else []
  | none => []

/-- The emitted `voltage_xmp` binding, if any: numbers stringified,
strings reduced to a leading decimal-number prefix when one exists. -/
def normVoltageXmpField (dimm : PDict) : PDict :=
  match orChain dimm ["voltage_xmp", "XMP Voltage", "Voltage XMP"] with
  | some (.pint n) => [("voltage_xmp", .pstr (toString n))]
  | some (.pnum q) => [("voltage_xmp", .pstr (decimalRepr q))]
  | some (.pstr s0) =>
      let s := pyStrip s0
      match leadingNum s.data with
      | some m => [("voltage_xmp", .pstr (String.mk m))]
      | none => if s ≠ "" then [("voltage_xmp", .pstr s)] else []
  | none => []

/-- The emitted `voltage_jdec` binding, if any: the leading decimal number
parsed to a float. -/
def normVoltageJdecField (dimm : PDict) : PDict :=
  match orChain dimm ["JEDEC_voltage", "Module Nominal Voltage", "Nominal Voltage"] with
  | some (.pint n) => [("voltage_jdec", .pnum (n : ℚ))]
  | some (.pnum q) => [("voltage_jdec", .pnum q)]
  | some (.pstr s0) =>
      let s := pyStrip s0
      match leadingNum s.data with
      | some m =>
          [("voltage_jdec",
            .pnum (decimalVal (m.takeWhile Char.isDigit)
              ((m.dropWhile Char.isDigit).drop 1)))]
      | none => []
  | none => []

/-- `normalize_dimm_data` from RamSleuth_DB.py: produce the normalized view
of a raw DIMM record, emitting each canonical key only when a safe
interpretation exists, in the source's insertion order (each `norm...Field`
definition above is the translation of the correspondingly named block of
the source function). -/
def normalize_dimm_data (dimm : PDict) : PDict :=
  normGenField dimm ++ (normManufacturerField dimm ++ (normDramMfgField dimm ++
    (normModuleGbField dimm ++ (normRanksField dimm ++ (normChipOrgField dimm ++
    (normPartNumberField dimm ++ (normStickerFields dimm ++
    (normTimingsXmpField dimm ++ (normTimingsJdecField dimm ++
    (normVoltageXmpField dimm ++ normVoltageJdecField dimm))))))))))

/-! ## Decoder output parser (ramsleuth_pkg/parser.py)

`parse_output` and `_split_decode_dimms_blocks` over string-valued record
dictionaries (`SDict`), with Python dict semantics: assignment updates an
existing key in place, otherwise appends; `setdefault` appends only when
the key is missing. -/

/-- A raw parsed record: string keys to string values, insertion ordered. -/
abbrev SDict : Type := List (String × String)

/-- Python `d.get(k)` on a parser record. -/
def sGet (d : SDict) (k : String) : Option String :=
  (d.find? (fun p => p.1 = k)).map (·.2)

/-- Python `d.get(k, v)` on a parser record. -/
def sGetD (d : SDict) (k v : String) : String := (sGet d k).getD v

/-- Python `d[k] = v`: replace in place, else append. -/
def sSet (d : SDict) (k v : String) : SDict :=
  match d with
  | [] => [(k, v)]
  | (k0, v0) :: t => if k0 = k then (k0, v) :: t else (k0, v0) :: sSet t k v

/-- Python `d.setdefault(k, v)`. -/
def sSetdefault (d : SDict) (k v : String) : SDict :=
  if (sGet d k).isSome then d else d ++ [(k, v)]

/-- The slot value of a record, `d.get("slot", "")`. -/
def slotOf (d : SDict) : String := sGetD d "slot" ""

/-- The matrix-header scan of `parse_output`: the first pipe-delimited line
whose first column starts with `field` (case-insensitive) and that has a
`dimm` column; returns its index and the per-DIMM header columns. -/
def findHeader : Nat → List String → Option (Nat × List String)
  | _, [] => none
  | idx, line :: rest =>
      if ¬pyContains line "|" then findHeader (idx + 1) rest
      else
        let parts := (splitOnChar '|' line.data).map (fun l => String.mk (stripChars l))
        if parts.length < 2 then findHeader (idx + 1) rest
        else
          if pyStartsWith (pyLower (parts.headD "")) "field" ∧
              (parts.tail.any (fun col => pyContains (pyLower col) "dimm")) then
            some (idx, parts.tail)
          else findHeader (idx + 1) rest

/-- The noise labels skipped by the matrix branch. -/
def noiseLabels : List String :=
  ["noise", "random garbage line not using pipes at all", ""]

/-- The canonical-key table of the matrix branch, applied to the trimmed
label and its lowercase form. -/
def canonicalKey (label_raw label_lower : String) : String :=
  if label_lower = "size/capacity" ∨ label_lower = "module capacity" ∨
      label_lower = "module size" then "module_gb"
  else if pyContains label_lower "module manufacturer" then "manufacturer"
  else if label_lower = "dram manufacturer" then "dram_mfg"
  else if label_lower = "part number" then "module_part_number"
  else if label_lower = "fundamental memory type" then "generation"
  else if label_lower = "module nominal voltage" then "JEDEC_voltage"
  else if label_lower = "minimum voltage" then "min_voltage"
  else if label_lower = "maximum voltage" then "max_voltage"
  else if label_lower = "configured voltage" then "configured_voltage"
  else if label_lower = "configured memory speed" ∨
      label_lower = "configured speed" then "configured_speed"
  else if label_lower = "ranks" ∨ pyContains label_lower "number of ranks" then
    "module_ranks"
  else if label_lower = "sdram device width" then "SDRAM Device Width"
  else if label_lower = "guessing dimm is in" then "Guessing DIMM is in"
  else if label_lower = "jedec timings" then "JEDEC Timings"
  else if label_lower = "additional jedec timings malformed" then
    "Additional JEDEC Timings malformed"
  else if label_raw = "Malformed Line With Too Many Columns" then
    "Malformed Line With Too Many Columns"
  else if label_lower = "pmic manufacturer" then "PMIC Manufacturer"
  else if label_lower = "hynix ic part number" then "Hynix IC Part Number"
  else label_raw

/-- Per-column assignment of one matrix row: empty cell values never touch
a record; a `Guessing DIMM is in` value is also copied to `slot`.  (Each
branch of the source's per-key chain performs the same assignment to its
canonical key, so the chain collapses to this single assignment.) -/
def assignCell (ck : String) (rawVal : String) (d : SDict) : SDict :=
  let val := pyStrip rawVal
  if val = "" then d
  else if ck = "Guessing DIMM is in" then
    sSet (sSet d "Guessing DIMM is in" val) "slot" val
  else sSet d ck val

/-- Process one line of the matrix body, updating every per-column record. -/
def matrixRow (dimmCount : Nat) (dimms : List SDict) (line : String) : List SDict :=
  if ¬pyContains line "|" then dimms
  else
    let parts := (splitOnChar '|' line.data).map (fun l => String.mk (stripChars l))
    if parts.length < 2 then dimms
    else
      let label_raw := String.mk (rstripCharsOf ':' (stripChars (parts.headD "").data))
      if label_raw = "" ∨ pyStartsWith label_raw "#" then dimms
      else
        let label_lower := pyLower label_raw
        if label_lower ∈ noiseLabels then dimms
        else
          let values := parts.tail
          let values :=
            if values.length < dimmCount then
              values ++ List.replicate (dimmCount - values.length) ""
            else values.take dimmCount
          let ck := canonicalKey label_raw label_lower
          let dimms := List.zipWith (assignCell ck) values dimms
          let dimms :=
            if label_lower = "additional jedec timings malformed" then
              dimms.map (fun d => sSetdefault d "Additional JEDEC Timings malformed" "")
            else dimms
          if label_raw = "Malformed Line With Too Many Columns" then
            dimms.map (fun d => sSetdefault d "Malformed Line With Too Many Columns" "")
          else dimms

/-- The matrix body loop: process pipe rows until the next decoder section
header (`Decoding EEPROM` or `SPD data for`) or end of input. -/
def matrixLoop (dimmCount : Nat) : List String → List SDict → List SDict
  | [], dimms => dimms
  | line :: rest, dimms =>
      let stripped := String.mk (lstripChars line.data)
      if pyStartsWith stripped "Decoding EEPROM" ∨ pyStartsWith stripped "SPD data for" then
        dimms
      else matrixLoop dimmCount rest (matrixRow dimmCount dimms line)

/-- The matrix-derived records of `parse_output`: one per header column,
dropping columns whose record stayed empty. -/
def matrixDimms (text : String) : List SDict :=
  let lines := pySplitLines text
  match findHeader 0 lines with
  | none => []
  | some (idx, headers) =>
      if headers = [] then []
      else
        let n := headers.length
        (matrixLoop n (lines.drop (idx + 1)) (List.replicate n [])).filter
          (fun d => d ≠ ([] : SDict))

/-- Whitespace normalization of a slot value:
Python `" ".join(str(v).lower().split())`. -/
def normalizeSlotString (v : String) : String :=
  String.intercalate " " ((splitWS (pyLower v).data).map String.mk)

/-- Positional match for `(bank|dimm)\s*\d+`, returning the whole match. -/
def matchSlotAt (l : List Char) : Option (List Char) :=
  let tryWord (w : List Char) : Option (List Char) :=
    if startsWithChars w l then
      let r := l.drop w.length
      let sp := r.takeWhile pyIsSpace
      let ds := (r.dropWhile pyIsSpace).takeWhile Char.isDigit
      if ds = [] then none else some (w ++ sp ++ ds)
    else none
  match tryWord "bank".data with
  | some r => some r
  | none => tryWord "dimm".data

/-- `_derive_slots_from_guess`: the aggregate `bank 3` / `bank 4` pair is
special-cased; otherwise the first `bank N` / `dimm N` token, else the raw
value. -/
def _derive_slots_from_guess (raw_val : String) : List String :=
  let normalized := normalizeSlotString raw_val
  if normalized = "" then []
  else if pyContains normalized "bank 3" ∧ pyContains normalized "bank 4" then
    ["bank 3", "bank 4"]
  else
    match searchIn matchSlotAt normalized.data with
    | some t => [String.mk t]
    | none => [raw_val]

/-- The plain-block scanner state: whether a block header has been seen,
the slots derived for the current block, the pending field accumulator,
and the committed records. -/
structure PlainState where
  sawHeader : Bool
  blockIds : List String
  pending : SDict
  plain : List SDict
deriving DecidableEq

/-- `_commit_block`: emit one record per derived slot, sharing the pending
fields, with `slot` (and the human-readable guess) rewritten to that slot;
blocks with no pending fields or no derived slots emit nothing. -/
def _commit_block (st : PlainState) : PlainState :=
  if st.pending = [] then { st with blockIds := [] }
  else if st.blockIds = [] then { st with pending := [] }
  else
    let recs := st.blockIds.map (fun slot =>
      let d := sSet st.pending "slot" slot
      if (sGet d "Guessing DIMM is in").isSome then
        sSet d "Guessing DIMM is in" slot
      else d)
    { sawHeader := st.sawHeader, blockIds := [], pending := [],
      plain := st.plain ++ recs }

/-- The noise keys ignored by the plain-block scanner. -/
def noiseKeys : List String :=
  ["Noise", "Debug", "Random garbage line not using pipes at all"]

/-- The `XMP timings` value normalization of the plain-block scanner:
`DDR4-3600 18-22-22` becomes `3600-18-22-22`; when any condition fails the
pending fields are left untouched. -/
def xmpTimingsUpdate (pending : SDict) (val : String) : SDict :=
  let xmp_val := pyStrip val
  if ¬pyContains xmp_val " " then pending
  else
    let pieces := splitOnce " ".data xmp_val.data
    match pieces with
    | [freq_part, timing_part] =>
        let fdigits := (freq_part.reverse.takeWhile Char.isDigit).reverse
        if fdigits = [] then pending
        else
          let timing := String.mk
            ((stripChars timing_part).map (fun c => if c = ' ' then '-' else c))
          sSet pending "timings_xmp" (String.mk fdigits ++ "-" ++ timing)
    | _ => pending

/-- One line of the plain-block scanner of `parse_output`.  Only a
`Decoding EEPROM` line starts (and commits) a block; everything before the
first such line is ignored; key/value lines are recognised by a run of two
spaces and dispatched by case-insensitive substring matching of the key. -/
def plainStep (st : PlainState) (raw_line : String) : PlainState :=
  let line := String.mk (rstripCharsOf '\n' raw_line.data)
  let stripped := String.mk (stripChars line.data)
  if stripped = "" then st
  else if pyStartsWith stripped "Decoding EEPROM" then
    let st := _commit_block st
    { st with sawHeader := true, blockIds := [], pending := [] }
  else if ¬st.sawHeader then st
  else if ¬pyContains line "  " then st
  else
    let pieces := splitOnce "  ".data line.data
    let key := String.mk (rstripCharsOf ':' (stripChars (pieces.headD [])))
    let val := String.mk (stripChars ((pieces.drop 1).headD []))
    if key = "" ∨ val = "" then st
    else
      let kl := pyLower key
      if key ∈ noiseKeys then st
      else if pyContains kl "fundamental memory type" ∨ pyContains kl "memory type" then
        { st with pending := sSet st.pending "generation" val }
      else if pyContains kl "module manufacturer" ∨ pyContains kl "module mfg" then
        { st with pending := sSet st.pending "manufacturer" val }
      else if pyContains kl "dram manufacturer" then
        { st with pending := sSet st.pending "dram_mfg" val }
      else if (pyContains kl "size" ∨ pyContains kl "capacity") ∧
          (pyContains (pyLower val) "mb" ∨ pyContains (pyLower val) "gb") then
        { st with pending := sSet (sSet st.pending "Module Capacity" val) "module_gb" val }
      else if kl = "ranks" ∨ pyStartsWith kl "ranks " then
        { st with pending := sSet (sSet st.pending "Ranks" val) "module_ranks" val }
      else if pyContains kl "sdram device width" then
        { st with pending := sSet st.pending "SDRAM Device Width" val }
      else if pyContains kl "module nominal voltage" then
        { st with pending := sSet st.pending "JEDEC_voltage" val }
      else if pyContains kl "minimum voltage" then
        { st with pending := sSet st.pending "min_voltage" val }
      else if pyContains kl "maximum voltage" then
        { st with pending := sSet st.pending "max_voltage" val }
      else if pyContains kl "configured voltage" then
        { st with pending := sSet st.pending "configured_voltage" val }
      else if pyContains kl "configured memory speed" ∨ pyContains kl "configured speed" then
        { st with pending := sSet st.pending "configured_speed" val }
      else if pyContains kl "part number" then
        { st with pending := sSet st.pending "module_part_number" val }
      else if pyContains kl "xmp timings" then
        { st with pending := xmpTimingsUpdate st.pending val }
      else if pyContains kl "guessing dimm is in" then
        { st with blockIds := _derive_slots_from_guess val,
                  pending := sSet st.pending "Guessing DIMM is in" val }
      else
        { st with pending := sSet st.pending key val }

/-- The plain-block records of `parse_output`: run the scanner over every
line and commit the trailing block at end of input. -/
def plainDimms (text : String) : List SDict :=
  (_commit_block ((pySplitLines text).foldl plainStep ⟨false, [], [], []⟩)).plain

/-- The slot deduplication pass of the final merge: keep a record only
when its slot is non-empty and not already claimed.  The source runs this
as two consecutive loops (matrix records, then plain records) over one
`seen_slots` set, which is the same as one pass over the concatenation. -/
def dedupBySlot (seen : List String) : List SDict → List SDict
  | [] => []
  | d :: t =>
      let slot := slotOf d
      if slot ≠ "" ∧ slot ∉ seen then d :: dedupBySlot (slot :: seen) t
      else dedupBySlot seen t

/-- The slots claimed after the deduplication pass has scanned `l`. -/
def seenAfter (seen : List String) : List SDict → List String
  | [] => seen
  | d :: t =>
      let slot := slotOf d
      if slot ≠ "" ∧ slot ∉ seen then seenAfter (slot :: seen) t
      else seenAfter seen t

/-- `infer_timings` from ramsleuth_pkg/parser.py: CAS-latency fallback by
generation and configured speed. -/
def infer_timings (speed_mt : Nat) (generation : String) : String :=
  let gen := pyUpper generation
  if pyContains gen "DDR4" then
    if 3200 ≤ speed_mt then "CL22-22-22"
    else if 2933 ≤ speed_mt then "CL21-21-21"
    else if 2666 ≤ speed_mt then "CL19-19-19"
    else if 2400 ≤ speed_mt then "CL17-17-17"
    else if 2133 ≤ speed_mt then "CL15-15-15"
    else "Unknown"
  else if pyContains gen "DDR5" then
    if 6400 ≤ speed_mt then "CL52-52-52"
    else if 6000 ≤ speed_mt then "CL48-48-48"
    else if 5600 ≤ speed_mt then "CL46-46-46"
    else if 5200 ≤ speed_mt then "CL42-42-42"
    else if 4800 ≤ speed_mt then "CL40-39-39"
    else "Unknown"
  else if pyContains gen "DDR3" then
    if 1866 ≤ speed_mt then "CL13-13-13"
    else if 1600 ≤ speed_mt then "CL11-11-11"
    else if 1333 ≤ speed_mt then "CL9-9-9"
    else if 1066 ≤ speed_mt then "CL7-7-7"
    else "Unknown"
  else "Unknown"

/-- The post-merge field pass of `parse_output`: default the two diagnostic
keys, then infer timings from the configured speed when possible. -/
def finalize (d : SDict) : SDict :=
  let d := sSetdefault d "Additional JEDEC Timings malformed" ""
  let d := sSetdefault d "Malformed Line With Too Many Columns" ""
  let conf := sGetD d "configured_speed" ""
  let gen := sGetD d "generation" ""
  if conf ≠ "" ∧ gen ≠ "" ∧ (sGet d "timings").isNone then
    let rest := conf.data.dropWhile (fun c => ¬c.isDigit)
    match rest with
    | [] => d
    | _ =>
        sSet d "timings"
          (infer_timings (digitsNat (rest.takeWhile Char.isDigit)) gen)
  else d

/-- `parse_output` from ramsleuth_pkg/parser.py: matrix records in column
order, then plain-block records in block-then-fan-out order, deduplicated
by slot, with the finalizing field pass applied to every emitted record. -/
def parse_output (text : String) : List SDict :=
  if pySplitLines text = [] then []
  else
    (dedupBySlot [] (matrixDimms text ++ plainDimms text)).map finalize

/-- The accumulator state of `_split_decode_dimms_blocks`. -/
structure SplitState where
  blocks : List (String × String)
  key : String
  curLines : List String
  idx : Nat
deriving DecidableEq

/-- The `_flush` helper of `_split_decode_dimms_blocks`. -/
def splitFlush (st : SplitState) : SplitState :=
  if st.curLines ≠ [] ∧ st.key ≠ "" then
    { blocks := st.blocks ++
        [(st.key,
          String.mk (rstripChars (String.intercalate "\n" st.curLines).data) ++ "\n")],
      key := "", curLines := [], idx := st.idx + 1 }
  else st

/-- One line of `_split_decode_dimms_blocks`: both `Decoding EEPROM` and
`SPD data for` start a new block there. -/
def splitStep (st : SplitState) (line : String) : SplitState :=
  let stripped := String.mk (lstripChars line.data)
  if pyStartsWith stripped "Decoding EEPROM" ∨ pyStartsWith stripped "SPD data for" then
    let st := splitFlush st
    { st with key := "dimm_" ++ toString st.idx, curLines := st.curLines ++ [line] }
  else if st.key ≠ "" then { st with curLines := st.curLines ++ [line] }
  else st

/-- `_split_decode_dimms_blocks` from ramsleuth_pkg/parser.py: one raw text
block per `Decoding EEPROM` / `SPD data for` section. -/
def _split_decode_dimms_blocks (output : String) : List (String × String) :=
  (splitFlush ((pySplitLines output).foldl splitStep ⟨[], "", [], 0⟩)).blocks

/-! ## Specification-side helper predicates used by the claim statements -/

/-- A structurally valid database element: an object with an integer
`priority` and a string `die_type` that is non-blank after stripping. -/
def goodEntry (x : JVal) : Prop :=
  ∃ f, x = JVal.jobj f ∧
    (∃ n, jGet f "priority" = some (.jint n)) ∧
    (∃ s, jGet f "die_type" = some (.jstr s) ∧ pyStrip s ≠ "")

/-- The object fields of a list of JSON values (every element an object on
the validated path). -/
def objFields (l : List JVal) : List JObj :=
  l.filterMap (fun x => match x with | .jobj f => some f | _ => none)

/-! ## Concrete decoder-output fixtures used by the parser claims -/

/-- A matrix section claiming slot `bank 3` followed by a plain block whose
guess names the `bank 3` / `bank 4` pair. -/
def fixtureMixed : String :=
  "Field | DIMM 0\nPart Number | PN-M\nGuessing DIMM is in | bank 3\nDecoding EEPROM ee\nPart Number  PN-P\nGuessing DIMM is in  bank 3 and bank 4\n"

/-- A matrix section whose single column never receives a
`Guessing DIMM is in` value, hence no slot. -/
def fixtureMatrixNoSlot : String :=
  "Field | DIMM 0\nPart Number | PNX\n"

/-- A plain block whose guess names banks 1 and 2 together. -/
def fixtureBanks12 : String :=
  "Decoding EEPROM ee\nPart Number  EX9\nGuessing DIMM is in  bank 1 and bank 2\n"

/-- A plain block whose guess names banks 3 and 4 together. -/
def fixtureBanks34 : String :=
  "Decoding EEPROM ee\nPart Number  EX9\nGuessing DIMM is in  bank 3 and bank 4\n"

/-- A block introduced by the `SPD data for` marker. -/
def fixtureSpdHeader : String :=
  "SPD data for ee\nPart Number  EX9\nGuessing DIMM is in  bank 3\n"

/-- The same block introduced by the `Decoding EEPROM` marker. -/
def fixtureDecodingHeader : String :=
  "Decoding EEPROM ee\nPart Number  EX9\nGuessing DIMM is in  bank 3\n"

/-! # Theorems

First the supporting lemmas (lexicographic order, `sortedDedup`, the
selection-loop characterisation, dictionary lemmas), then one theorem per
claim with its witness or counterexample. -/

theorem char_eq_of_toNat_eq {a b : Char} (h : a.toNat = b.toNat) : a = b :=
  Char.eq_of_val_eq (UInt32.ext h)

theorem charsLt_asymm : ∀ {a b : List Char}, charsLt a b = true → charsLt b a = false
  | [], [], h => by simp [charsLt] at h
  | [], _ :: _, _ => by simp [charsLt]
  | _ :: _, [], h => by simp [charsLt] at h
  | a :: s, b :: t, h => by
      simp only [charsLt] at h ⊢
      by_cases h1 : a.toNat < b.toNat
      · have h2 : ¬b.toNat < a.toNat := by omega
        simp [h1, h2]
      · by_cases h2 : b.toNat < a.toNat
        · simp [h1, h2] at h
        · simp only [h1, h2, if_false] at h ⊢
          exact charsLt_asymm h

theorem charsLt_conn :
    ∀ {a b : List Char}, charsLt a b = false → charsLt b a = false → a = b
  | [], [], _, _ => rfl
  | [], _ :: _, h, _ => by simp [charsLt] at h
  | _ :: _, [], _, h => by simp [charsLt] at h
  | a :: s, b :: t, h, h2 => by
      simp only [charsLt] at h h2
      by_cases hab : a.toNat < b.toNat
      · simp [hab] at h
      · by_cases hba : b.toNat < a.toNat
        · simp [hba, hab] at h2
        · have hv : a = b := char_eq_of_toNat_eq (by omega)
          subst hv
          simp only [hab, if_false] at h h2
          rw [charsLt_conn h h2]

theorem charsLt_trans :
    ∀ {a b c : List Char}, charsLt a b = true → charsLt b c = true → charsLt a c = true
  | [], [], _, h, _ => by simp [charsLt] at h
  | [], _ :: _, [], _, h => by simp [charsLt] at h
  | [], _ :: _, _ :: _, _, _ => by simp [charsLt]
  | _ :: _, [], _, h, _ => by simp [charsLt] at h
  | _ :: _, _ :: _, [], _, h => by simp [charsLt] at h
  | a :: s, b :: t, c :: u, h, h2 => by
      simp only [charsLt] at h h2 ⊢
      by_cases hab : a.toNat < b.toNat
      · by_cases hbc : b.toNat < c.toNat
        · have hac : a.toNat < c.toNat := by omega
          simp [hac]
        · by_cases hcb : c.toNat < b.toNat
          · simp [hbc, hcb] at h2
          · have hv : b = c := char_eq_of_toNat_eq (by omega)
            subst hv
            simp [hab]
      · by_cases hba : b.toNat < a.toNat
        · simp [hab, hba] at h
        · have hv : a = b := char_eq_of_toNat_eq (by omega)
          subst hv
          by_cases hbc : a.toNat < c.toNat
          · simp [hbc]
          · by_cases hcb : c.toNat < a.toNat
            · simp [hbc, hcb] at h2
            · have hv2 : a = c := char_eq_of_toNat_eq (by omega)
              subst hv2
              simp only [hab, hbc, if_false, lt_irrefl] at h h2 ⊢
              exact charsLt_trans h h2

theorem pyStrLt_asymm {a b : String} (h : pyStrLt a b = true) : pyStrLt b a = false :=
  charsLt_asymm h

theorem pyStrLt_conn {a b : String} (h : pyStrLt a b = false)
    (h2 : pyStrLt b a = false) : a = b := by
  cases a with
  | mk da =>
      cases b with
      | mk db => exact congrArg String.mk (charsLt_conn h h2)

theorem pyStrLt_trans {a b c : String} (h : pyStrLt a b = true)
    (h2 : pyStrLt b c = true) : pyStrLt a c = true :=
  charsLt_trans h h2

theorem pyStrLt_le_trans {a b c : String} (h : pyStrLt b a = false)
    (h2 : pyStrLt c b = false) : pyStrLt c a = false := by
  cases hca : pyStrLt c a with
  | false => rfl
  | true =>
      exfalso
      cases hab : pyStrLt a b with
      | false =>
          have hv : a = b := pyStrLt_conn hab h
          subst hv
          rw [hca] at h2
          simp at h2
      | true =>
          have h3 := pyStrLt_trans hca hab
          rw [h3] at h2
          simp at h2

theorem mem_insertAsc {a s : String} : ∀ {l : List String},
    (a ∈ insertAsc s l ↔ a = s ∨ a ∈ l)
  | [] => by simp [insertAsc]
  | x :: t => by
      simp only [insertAsc]
      cases h : pyStrLt s x with
      | true =>
          simp only [if_true]
          constructor
          · intro hm
            rcases List.mem_cons.mp hm with h1 | h1
            · exact Or.inl h1
            · exact Or.inr h1
          · intro hm
            rcases hm with h1 | h1
            · exact h1 ▸ List.mem_cons_self _ _
            · exact List.mem_cons_of_mem _ h1
      | false =>
          simp only [Bool.false_eq_true, if_false]
          constructor
          · intro hm
            rcases List.mem_cons.mp hm with h1 | h1
            · exact Or.inr (h1 ▸ List.mem_cons_self _ _)
            · rcases mem_insertAsc.mp h1 with h2 | h2
              · exact Or.inl h2
              · exact Or.inr (List.mem_cons_of_mem _ h2)
          · intro hm
            rcases hm with h1 | h1
            · exact List.mem_cons_of_mem _ (mem_insertAsc.mpr (Or.inl h1))
            · rcases List.mem_cons.mp h1 with h2 | h2
              · exact h2 ▸ List.mem_cons_self _ _
              · exact List.mem_cons_of_mem _ (mem_insertAsc.mpr (Or.inr h2))

theorem mem_sortAsc {a : String} : ∀ {l : List String}, a ∈ sortAsc l ↔ a ∈ l
  | [] => Iff.rfl
  | x :: t => by
      simp only [sortAsc]
      rw [mem_insertAsc]
      rw [mem_sortAsc (l := t)]
      simp

theorem mem_destutter {a : String} : ∀ {l : List String}, a ∈ destutter l ↔ a ∈ l
  | [] => Iff.rfl
  | [x] => Iff.rfl
  | x :: y :: t => by
      simp only [destutter]
      by_cases h : x = y
      · subst h
        rw [if_pos rfl]
        rw [mem_destutter (l := x :: t)]
        simp
      · rw [if_neg h]
        simp only [List.mem_cons]
        rw [mem_destutter (l := y :: t)]
        simp

theorem mem_sortedDedup {a : String} {l : List String} :
    a ∈ sortedDedup l ↔ a ∈ l := by
  unfold sortedDedup
  rw [mem_destutter, mem_sortAsc]

theorem insertAsc_pairwise {s : String} :
    ∀ {l : List String}, List.Pairwise (fun a b => pyStrLt b a = false) l →
      List.Pairwise (fun a b => pyStrLt b a = false) (insertAsc s l)
  | [], _ => by simp [insertAsc]
  | x :: t, h => by
      simp only [insertAsc]
      rcases List.pairwise_cons.mp h with ⟨hx, ht⟩
      cases hs : pyStrLt s x with
      | true =>
          rw [if_pos rfl]
          refine List.pairwise_cons.mpr ⟨?_, h⟩
          intro b hb
          rcases List.mem_cons.mp hb with h1 | h1
          · subst h1
            exact pyStrLt_asymm hs
          · exact pyStrLt_le_trans (pyStrLt_asymm hs) (hx b h1)
      | false =>
          simp only [Bool.false_eq_true, if_false]
          refine List.pairwise_cons.mpr ⟨?_, insertAsc_pairwise ht⟩
          intro b hb
          rcases mem_insertAsc.mp hb with h1 | h1
          · subst h1
            exact hs
          · exact hx b h1

theorem sortAsc_pairwise :
    ∀ (l : List String), List.Pairwise (fun a b => pyStrLt b a = false) (sortAsc l)
  | [] => List.Pairwise.nil
  | x :: t => insertAsc_pairwise (sortAsc_pairwise t)

theorem destutter_pairwise_lt :
    ∀ {l : List String}, List.Pairwise (fun a b => pyStrLt b a = false) l →
      List.Pairwise (fun a b => pyStrLt a b = true) (destutter l)
  | [], _ => List.Pairwise.nil
  | [x], _ => List.pairwise_singleton _ _
  | x :: y :: t, h => by
      simp only [destutter]
      rcases List.pairwise_cons.mp h with ⟨hx, ht⟩
      by_cases hxy : x = y
      · rw [if_pos hxy]
        exact destutter_pairwise_lt ht
      · rw [if_neg hxy]
        refine List.pairwise_cons.mpr ⟨?_, destutter_pairwise_lt ht⟩
        intro b hb
        have hbmem : b ∈ y :: t := mem_destutter.mp hb
        have hle : pyStrLt b x = false := hx b hbmem
        have hne : x ≠ b := by
          intro he
          subst he
          rcases List.mem_cons.mp hbmem with h1 | h1
          · exact hxy h1
          · rcases List.pairwise_cons.mp ht with ⟨hy, _⟩
            have h2 : pyStrLt x y = false := hy x h1
            exact hxy (pyStrLt_conn h2 (hx y (List.mem_cons_self _ _)))
        cases hlt : pyStrLt x b with
        | true => rfl
        | false => exact absurd (pyStrLt_conn hlt hle) hne

theorem sortedDedup_pairwise_lt (l : List String) :
    List.Pairwise (fun a b => pyStrLt a b = true) (sortedDedup l) :=
  destutter_pairwise_lt (sortAsc_pairwise l)

theorem sortedDedup_ne_nil {l : List String} (h : l ≠ []) : sortedDedup l ≠ [] := by
  intro hd
  rcases l with _ | ⟨x, t⟩
  · exact h rfl
  · have : x ∈ sortedDedup (x :: t) := mem_sortedDedup.mpr (List.mem_cons_self _ _)
    rw [hd] at this
    exact List.not_mem_nil _ this

/-! ### Characterisation of the selection loop of find_die_type -/

theorem mem_bestAt {dimm : PDict} {p : Int} {l : List DbEntry} {e : DbEntry} :
    e ∈ bestAt dimm p l ↔
      e ∈ l ∧ is_match dimm e.fields = true ∧ e.priority = p := by
  simp [bestAt, List.mem_filter, and_assoc]

theorem bestAt_cons_skip {dimm : PDict} {p : Int} {e : DbEntry} {t : List DbEntry}
    (h : is_match dimm e.fields = false ∨ e.priority ≠ p) :
    bestAt dimm p (e :: t) = bestAt dimm p t := by
  simp only [bestAt, List.filter_cons]
  rcases h with h | h
  · simp [h]
  · have : (e.priority == p) = false := by
      simp only [beq_eq_false_iff_ne, ne_eq]
      exact h
    simp [this]

theorem bestAt_cons_keep {dimm : PDict} {p : Int} {e : DbEntry} {t : List DbEntry}
    (hm : is_match dimm e.fields = true) (hp : e.priority = p) :
    bestAt dimm p (e :: t) = e :: bestAt dimm p t := by
  simp only [bestAt, List.filter_cons]
  have : (e.priority == p) = true := by
    simp only [beq_iff_eq]
    exact hp
  simp [hm, this]

theorem maxMatchPrio_cons_pos {dimm : PDict} {e : DbEntry} {t : List DbEntry}
    (him : is_match dimm e.fields = true) :
    maxMatchPrio dimm (e :: t) =
      some (match maxMatchPrio dimm t with
            | none => e.priority
            | some p => max e.priority p) := by
  simp [maxMatchPrio, him]

theorem maxMatchPrio_cons_neg {dimm : PDict} {e : DbEntry} {t : List DbEntry}
    (him : is_match dimm e.fields = false) :
    maxMatchPrio dimm (e :: t) = maxMatchPrio dimm t := by
  simp [maxMatchPrio, him]

theorem maxMatchPrio_none {dimm : PDict} : ∀ {l : List DbEntry},
    maxMatchPrio dimm l = none ↔ ∀ e ∈ l, is_match dimm e.fields = false
  | [] => by simp [maxMatchPrio]
  | e :: t => by
      cases him : is_match dimm e.fields with
      | true =>
          rw [maxMatchPrio_cons_pos him]
          constructor
          · intro hcontra
            exact absurd hcontra (by simp)
          · intro hall
            have h1 := hall e (List.mem_cons_self _ _)
            rw [him] at h1
            simp at h1
      | false =>
          rw [maxMatchPrio_cons_neg him]
          rw [maxMatchPrio_none (l := t)]
          constructor
          · intro h x hx
            rcases List.mem_cons.mp hx with h1 | h1
            · subst h1
              exact him
            · exact h x h1
          · intro h x hx
            exact h x (List.mem_cons_of_mem _ hx)

theorem bestAt_nil_of_none {dimm : PDict} {p : Int} {l : List DbEntry}
    (h : maxMatchPrio dimm l = none) : bestAt dimm p l = [] := by
  simp only [bestAt]
  rw [List.filter_eq_nil_iff]
  intro e he
  have := maxMatchPrio_none.mp h e he
  simp [this]

theorem le_maxMatchPrio {dimm : PDict} : ∀ {l : List DbEntry} {e : DbEntry},
    e ∈ l → is_match dimm e.fields = true →
      ∃ q, maxMatchPrio dimm l = some q ∧ e.priority ≤ q
  | [], _, h, _ => absurd h (List.not_mem_nil _)
  | x :: t, e, h, hm => by
      rcases List.mem_cons.mp h with h1 | h1
      · subst h1
        rw [maxMatchPrio_cons_pos hm]
        cases hq : maxMatchPrio dimm t with
        | none => exact ⟨e.priority, rfl, le_refl _⟩
        | some q => exact ⟨max e.priority q, rfl, le_max_left _ _⟩
      · obtain ⟨q, hq, hle⟩ := le_maxMatchPrio h1 hm
        cases him : is_match dimm x.fields with
        | true =>
            rw [maxMatchPrio_cons_pos him, hq]
            exact ⟨max x.priority q, rfl, le_trans hle (le_max_right _ _)⟩
        | false =>
            rw [maxMatchPrio_cons_neg him]
            exact ⟨q, hq, hle⟩

theorem maxMatchPrio_attained {dimm : PDict} : ∀ {l : List DbEntry} {q : Int},
    maxMatchPrio dimm l = some q →
      ∃ e, e ∈ l ∧ is_match dimm e.fields = true ∧ e.priority = q
  | [], _, h => by simp [maxMatchPrio] at h
  | x :: t, q, h => by
      cases him : is_match dimm x.fields with
      | false =>
          rw [maxMatchPrio_cons_neg him] at h
          obtain ⟨e, he, hm, hp⟩ := maxMatchPrio_attained h
          exact ⟨e, List.mem_cons_of_mem _ he, hm, hp⟩
      | true =>
          rw [maxMatchPrio_cons_pos him] at h
          cases hq : maxMatchPrio dimm t with
          | none =>
              rw [hq] at h
              simp only [Option.some.injEq] at h
              exact ⟨x, List.mem_cons_self _ _, him, h⟩
          | some q0 =>
              rw [hq] at h
              simp only [Option.some.injEq] at h
              by_cases hc : q0 ≤ x.priority
              · rw [max_eq_left hc] at h
                exact ⟨x, List.mem_cons_self _ _, him, h⟩
              · rw [max_eq_right (le_of_lt (not_le.mp hc))] at h
                obtain ⟨e, he, hm, hp⟩ := maxMatchPrio_attained hq
                exact ⟨e, List.mem_cons_of_mem _ he, hm, by rw [hp, h]⟩

theorem matchStep_skip {dimm : PDict} {e : DbEntry} (s : Option Int × List DbEntry)
    (him : is_match dimm e.fields = false) : matchStep dimm s e = s := by
  simp [matchStep, him]

theorem matchStep_first {dimm : PDict} {e : DbEntry} (acc : List DbEntry)
    (him : is_match dimm e.fields = true) :
    matchStep dimm (none, acc) e = (some e.priority, [e]) := by
  simp [matchStep, him]

theorem matchStep_gt {dimm : PDict} {e : DbEntry} {p : Int} (acc : List DbEntry)
    (him : is_match dimm e.fields = true) (h : p < e.priority) :
    matchStep dimm (some p, acc) e = (some e.priority, [e]) := by
  simp [matchStep, him, h]

theorem matchStep_eq {dimm : PDict} {e : DbEntry} {p : Int} (acc : List DbEntry)
    (him : is_match dimm e.fields = true) (h : e.priority = p) :
    matchStep dimm (some p, acc) e = (some p, acc ++ [e]) := by
  simp [matchStep, him, h, lt_irrefl]

theorem matchStep_lt {dimm : PDict} {e : DbEntry} {p : Int} (acc : List DbEntry)
    (him : is_match dimm e.fields = true) (h : e.priority < p) :
    matchStep dimm (some p, acc) e = (some p, acc) := by
  have h1 : ¬p < e.priority := by omega
  have h2 : e.priority ≠ p := by omega
  simp [matchStep, him, h1, h2]

theorem foldl_matchStep_none (dimm : PDict) :
    ∀ {l : List DbEntry} (p : Int) (acc : List DbEntry),
      maxMatchPrio dimm l = none →
        List.foldl (matchStep dimm) (some p, acc) l = (some p, acc)
  | [], _, _, _ => rfl
  | e :: t, p, acc, h => by
      have hall := maxMatchPrio_none.mp h
      have him : is_match dimm e.fields = false := hall e (List.mem_cons_self _ _)
      have ht : maxMatchPrio dimm t = none :=
        maxMatchPrio_none.mpr (fun x hx => hall x (List.mem_cons_of_mem _ hx))
      rw [List.foldl_cons, matchStep_skip _ him]
      exact foldl_matchStep_none dimm p acc ht

theorem foldl_matchStep_le (dimm : PDict) :
    ∀ {l : List DbEntry} {q : Int} (p : Int) (acc : List DbEntry),
      maxMatchPrio dimm l = some q → q ≤ p →
        List.foldl (matchStep dimm) (some p, acc) l =
          (some p, acc ++ bestAt dimm p l)
  | [], _, _, _, h, _ => by simp [maxMatchPrio] at h
  | e :: t, q, p, acc, h, hqp => by
      rw [List.foldl_cons]
      cases him : is_match dimm e.fields with
      | false =>
          rw [maxMatchPrio_cons_neg him] at h
          rw [matchStep_skip _ him, bestAt_cons_skip (Or.inl him)]
          exact foldl_matchStep_le dimm p acc h hqp
      | true =>
          rw [maxMatchPrio_cons_pos him] at h
          cases hq : maxMatchPrio dimm t with
          | none =>
              rw [hq] at h
              simp only [Option.some.injEq] at h
              have hep : e.priority ≤ p := by omega
              rcases eq_or_lt_of_le hep with he | he
              · rw [matchStep_eq _ him he, foldl_matchStep_none dimm p (acc ++ [e]) hq,
                  bestAt_cons_keep him he, bestAt_nil_of_none hq]
              · rw [matchStep_lt _ him he, foldl_matchStep_none dimm p acc hq,
                  bestAt_cons_skip (Or.inr (by omega : e.priority ≠ p)),
                  bestAt_nil_of_none hq]
                simp
          | some q0 =>
              rw [hq] at h
              simp only [Option.some.injEq] at h
              have hmle : max e.priority q0 ≤ p := by rw [h]; exact hqp
              have hep : e.priority ≤ p := le_trans (le_max_left _ _) hmle
              have hq0p : q0 ≤ p := le_trans (le_max_right _ _) hmle
              rcases eq_or_lt_of_le hep with he | he
              · rw [matchStep_eq _ him he,
                  foldl_matchStep_le dimm p (acc ++ [e]) hq hq0p,
                  bestAt_cons_keep him he]
                simp
              · rw [matchStep_lt _ him he,
                  foldl_matchStep_le dimm p acc hq hq0p,
                  bestAt_cons_skip (Or.inr (by omega : e.priority ≠ p))]

theorem foldl_matchStep_gt (dimm : PDict) :
    ∀ {l : List DbEntry} {q : Int} (p : Int) (acc : List DbEntry),
      maxMatchPrio dimm l = some q → p < q →
        List.foldl (matchStep dimm) (some p, acc) l = (some q, bestAt dimm q l)
  | [], _, _, _, h, _ => by simp [maxMatchPrio] at h
  | e :: t, q, p, acc, h, hpq => by
      rw [List.foldl_cons]
      cases him : is_match dimm e.fields with
      | false =>
          rw [maxMatchPrio_cons_neg him] at h
          rw [matchStep_skip _ him, bestAt_cons_skip (Or.inl him)]
          exact foldl_matchStep_gt dimm p acc h hpq
      | true =>
          rw [maxMatchPrio_cons_pos him] at h
          cases hq : maxMatchPrio dimm t with
          | none =>
              rw [hq] at h
              simp only [Option.some.injEq] at h
              subst h
              rw [matchStep_gt _ him hpq, foldl_matchStep_none dimm _ _ hq,
                bestAt_cons_keep him rfl, bestAt_nil_of_none hq]
          | some q0 =>
              rw [hq] at h
              simp only [Option.some.injEq] at h
              by_cases hr : q0 ≤ e.priority
              · rw [max_eq_left hr] at h
                subst h
                rw [matchStep_gt _ him hpq,
                  foldl_matchStep_le dimm e.priority [e] hq hr,
                  bestAt_cons_keep him rfl]
                simp
              · rw [max_eq_right (le_of_lt (not_le.mp hr))] at h
                subst h
                rw [bestAt_cons_skip (Or.inr (by omega : e.priority ≠ q0))]
                by_cases hpe : p < e.priority
                · rw [matchStep_gt _ him hpe]
                  exact foldl_matchStep_gt dimm _ _ hq (not_le.mp hr)
                · rcases eq_or_lt_of_le (not_lt.mp hpe) with he | he
                  · rw [matchStep_eq _ him he]
                    exact foldl_matchStep_gt dimm _ _ hq hpq
                  · rw [matchStep_lt _ him he]
                    exact foldl_matchStep_gt dimm _ _ hq hpq


theorem scanBest_none {dimm : PDict} {db : List DbEntry}
    (h : maxMatchPrio dimm db = none) : scanBest dimm db = (none, []) := by
  induction db with
  | nil => rfl
  | cons e t ih =>
      have hall := maxMatchPrio_none.mp h
      have him : is_match dimm e.fields = false := hall e (List.mem_cons_self _ _)
      have ht : maxMatchPrio dimm t = none :=
        maxMatchPrio_none.mpr (fun x hx => hall x (List.mem_cons_of_mem _ hx))
      unfold scanBest at ih ⊢
      rw [List.foldl_cons, matchStep_skip _ him]
      exact ih ht

theorem scanBest_some (dimm : PDict) :
    ∀ {db : List DbEntry} {q : Int}, maxMatchPrio dimm db = some q →
      scanBest dimm db = (some q, bestAt dimm q db)
  | [], _, h => by simp [maxMatchPrio] at h
  | e :: t, q, h => by
      unfold scanBest
      rw [List.foldl_cons]
      cases him : is_match dimm e.fields with
      | false =>
          rw [maxMatchPrio_cons_neg him] at h
          rw [matchStep_skip _ him, bestAt_cons_skip (Or.inl him)]
          have := scanBest_some dimm h
          unfold scanBest at this
          exact this
      | true =>
          rw [maxMatchPrio_cons_pos him] at h
          rw [matchStep_first _ him]
          cases hq : maxMatchPrio dimm t with
          | none =>
              rw [hq] at h
              simp only [Option.some.injEq] at h
              subst h
              rw [foldl_matchStep_none dimm _ _ hq, bestAt_cons_keep him rfl,
                bestAt_nil_of_none hq]
          | some q0 =>
              rw [hq] at h
              simp only [Option.some.injEq] at h
              by_cases hr : q0 ≤ e.priority
              · rw [max_eq_left hr] at h
                subst h
                rw [foldl_matchStep_le dimm e.priority [e] hq hr,
                  bestAt_cons_keep him rfl]
                simp
              · rw [max_eq_right (le_of_lt (not_le.mp hr))] at h
                subst h
                rw [foldl_matchStep_gt dimm e.priority [e] hq (not_le.mp hr),
                  bestAt_cons_skip (Or.inr (by omega : e.priority ≠ q0))]


theorem two_mem_length {α : Type} {l : List α} {a b : α} (ha : a ∈ l) (hb : b ∈ l)
    (hne : a ≠ b) : 2 ≤ l.length := by
  match l with
  | [] => exact absurd ha (List.not_mem_nil _)
  | [x] =>
      rw [List.mem_singleton] at ha hb
      exact absurd (ha.trans hb.symm) hne
  | x :: y :: t => simp [List.length_cons]

/-- Claim C1: for every normalized DIMM record and rule database, if the
record matches rules A and B with A.priority greater than B.priority, then
the selection loop scans the whole database (its result is exactly the
maximal matching priority together with the filter of ALL entries matching
at that priority), B is never in the tied-best set, every tied-best entry
matches at a priority at least A.priority, and the returned die_type is
either taken from the tied-best set or is the Ambiguous marker — never
B's. -/
theorem find_die_type_priority_monotone (dimm : PDict) (db : List DbEntry)
    (A B : DbEntry) (hA : A ∈ db) (hB : B ∈ db)
    (hmA : is_match dimm A.fields = true) (hmB : is_match dimm B.fields = true)
    (hp : B.priority < A.priority) :
    (∃ q, maxMatchPrio dimm db = some q ∧ A.priority ≤ q ∧
        scanBest dimm db = (some q, bestAt dimm q db)) ∧
    B ∉ (scanBest dimm db).2 ∧
    (∀ e ∈ (scanBest dimm db).2,
        is_match dimm e.fields = true ∧ A.priority ≤ e.priority) ∧
    ((find_die_type dimm db).1 = "Ambiguous" ∨
      (find_die_type dimm db).1 ∈ (scanBest dimm db).2.map DbEntry.die_type) := by
  obtain ⟨q, hq, hle⟩ := le_maxMatchPrio hA hmA
  have hscan : scanBest dimm db = (some q, bestAt dimm q db) := scanBest_some dimm hq
  have hsnd : (scanBest dimm db).2 = bestAt dimm q db := by rw [hscan]
  refine ⟨⟨q, hq, hle, hscan⟩, ?_, ?_, ?_⟩
  · rw [hsnd]
    intro hmem
    have h3 := (mem_bestAt.mp hmem).2.2
    omega
  · rw [hsnd]
    intro e he
    rcases mem_bestAt.mp he with ⟨_, hm, hpe⟩
    exact ⟨hm, by omega⟩
  · obtain ⟨e0, he0, hm0, hp0⟩ := maxMatchPrio_attained hq
    have he0b : e0 ∈ bestAt dimm q db := mem_bestAt.mpr ⟨he0, hm0, hp0⟩
    rw [hsnd]
    unfold find_die_type
    rw [hscan]
    cases hbl : bestAt dimm q db with
    | nil =>
        rw [hbl] at he0b
        exact absurd he0b (List.not_mem_nil _)
    | cons x t =>
        cases t with
        | nil =>
            right
            simp
        | cons y u =>
            by_cases hlen :
                (sortedDedup ((x :: y :: u).map DbEntry.die_type)).length = 1
            · right
              simp only [hlen, if_pos rfl]
              have hnn : sortedDedup ((x :: y :: u).map DbEntry.die_type) ≠ [] :=
                sortedDedup_ne_nil (by simp)
              cases hsd : sortedDedup ((x :: y :: u).map DbEntry.die_type) with
              | nil => exact absurd hsd hnn
              | cons s rest =>
                  have hmem : s ∈ sortedDedup ((x :: y :: u).map DbEntry.die_type) := by
                    rw [hsd]
                    exact List.mem_cons_self _ _
                  have hmem2 := mem_sortedDedup.mp hmem
                  simpa using hmem2
            · left
              simp only [hlen]
              simp

/-- Witness for C1 at a concrete record and database: a generation-DDR4
rule of priority 100 and an unconstrained rule of priority 50 both match;
the priority-50 rule is not in the tied-best set and the chosen die_type
is the priority-100 rule's. -/
theorem find_die_type_priority_monotone_witness :
    (⟨50, "Y", none, []⟩ : DbEntry) ∉
      (scanBest [("generation", PVal.pstr "DDR4")]
        [⟨100, "X", none, [("generation", PVal.pstr "DDR4")]⟩,
         ⟨50, "Y", none, []⟩]).2 ∧
    (find_die_type [("generation", PVal.pstr "DDR4")]
      [⟨100, "X", none, [("generation", PVal.pstr "DDR4")]⟩,
       ⟨50, "Y", none, []⟩]).1 = "X" := by
  have h := find_die_type_priority_monotone
    [("generation", PVal.pstr "DDR4")]
    [⟨100, "X", none, [("generation", PVal.pstr "DDR4")]⟩, ⟨50, "Y", none, []⟩]
    ⟨100, "X", none, [("generation", PVal.pstr "DDR4")]⟩
    ⟨50, "Y", none, []⟩
    (by decide) (by decide) (by decide) (by decide) (by decide)
  exact ⟨h.2.1, by decide⟩

/-- Claim C2: whenever two entries of the tied-best set carry different
die_type values, the resolver returns the Ambiguous marker with the
distinct die types, lexicographically sorted (by code point), deduplicated
and comma-joined; the listed die types are exactly those of the tied-best
set. -/
theorem find_die_type_ambiguous_sorted (dimm : PDict) (db : List DbEntry)
    (e1 e2 : DbEntry)
    (h1 : e1 ∈ (scanBest dimm db).2) (h2 : e2 ∈ (scanBest dimm db).2)
    (hne : e1.die_type ≠ e2.die_type) :
    find_die_type dimm db =
      ("Ambiguous", some ("Multiple matching heuristics at same priority: " ++
        String.intercalate ", "
          (sortedDedup ((scanBest dimm db).2.map DbEntry.die_type)))) ∧
    List.Pairwise (fun a b => pyStrLt a b = true)
      (sortedDedup ((scanBest dimm db).2.map DbEntry.die_type)) ∧
    (∀ s, s ∈ sortedDedup ((scanBest dimm db).2.map DbEntry.die_type) ↔
      s ∈ (scanBest dimm db).2.map DbEntry.die_type) := by
  refine ⟨?_, sortedDedup_pairwise_lt _, fun s => mem_sortedDedup⟩
  have hnee : e1 ≠ e2 := fun h => hne (h ▸ rfl)
  unfold find_die_type
  cases hbl : (scanBest dimm db).2 with
  | nil =>
      rw [hbl] at h1
      exact absurd h1 (List.not_mem_nil _)
  | cons x t =>
      cases t with
      | nil =>
          rw [hbl] at h1 h2
          rw [List.mem_singleton] at h1 h2
          exact absurd (h1.trans h2.symm) hnee
      | cons y u =>
          have hm1 : e1.die_type ∈ sortedDedup ((x :: y :: u).map DbEntry.die_type) := by
            rw [mem_sortedDedup]
            rw [hbl] at h1
            exact List.mem_map_of_mem _ h1
          have hm2 : e2.die_type ∈ sortedDedup ((x :: y :: u).map DbEntry.die_type) := by
            rw [mem_sortedDedup]
            rw [hbl] at h2
            exact List.mem_map_of_mem _ h2
          have hlen : ¬(sortedDedup ((x :: y :: u).map DbEntry.die_type)).length = 1 := by
            intro hl
            obtain ⟨s, hs⟩ := List.length_eq_one.mp hl
            rw [hs, List.mem_singleton] at hm1 hm2
            exact hne (hm1.trans hm2.symm)
          show (if (sortedDedup ((x :: y :: u).map DbEntry.die_type)).length = 1 then
              ((sortedDedup ((x :: y :: u).map DbEntry.die_type)).headD "",
                combinedNotes (x :: y :: u))
            else
              ("Ambiguous",
                some ("Multiple matching heuristics at same priority: " ++
                  String.intercalate ", "
                    (sortedDedup ((x :: y :: u).map DbEntry.die_type))))) =
            ("Ambiguous",
              some ("Multiple matching heuristics at same priority: " ++
                String.intercalate ", "
                  (sortedDedup ((x :: y :: u).map DbEntry.die_type))))
          rw [if_neg hlen]

/-- Witness for C2 at the specification's Scenario B: two priority-50 DDR4
rules with die types A and B, one additionally constrained to Corsair, both
match a Corsair DDR4 record, and the result is the Ambiguous verdict with
the sorted comma-joined message. -/
theorem find_die_type_ambiguous_sorted_witness :
    find_die_type
      [("generation", PVal.pstr "DDR4"), ("manufacturer", PVal.pstr "Corsair Inc")]
      [⟨50, "A", none, [("generation", PVal.pstr "DDR4")]⟩,
       ⟨50, "B", none,
        [("generation", PVal.pstr "DDR4"), ("manufacturer", PVal.pstr "Corsair")]⟩] =
      ("Ambiguous", some "Multiple matching heuristics at same priority: A, B") := by
  have h := find_die_type_ambiguous_sorted
    [("generation", PVal.pstr "DDR4"), ("manufacturer", PVal.pstr "Corsair Inc")]
    [⟨50, "A", none, [("generation", PVal.pstr "DDR4")]⟩,
     ⟨50, "B", none,
      [("generation", PVal.pstr "DDR4"), ("manufacturer", PVal.pstr "Corsair")]⟩]
    ⟨50, "A", none, [("generation", PVal.pstr "DDR4")]⟩
    ⟨50, "B", none,
      [("generation", PVal.pstr "DDR4"), ("manufacturer", PVal.pstr "Corsair")]⟩
    (by decide) (by decide) (by decide)
  rw [h.1]
  rfl

/-! ### Rule database loader: validation and stable sorting -/

theorem validateEntries_ok : ∀ {i : Nat} {l : List JVal} {r : List JObj},
    validateEntries i l = .ok r → r = objFields l ∧ ∀ x ∈ l, goodEntry x
  | _, [], r, h => by
      simp only [validateEntries] at h
      cases h
      exact ⟨rfl, by simp⟩
  | i, x :: t, r, h => by
      simp only [validateEntries] at h
      split at h
      next f =>
        split at h
        next hp => simp at h
        next n hp =>
          split at h
          next hd => simp at h
          next s hd =>
            split at h
            next hs => simp at h
            next hs =>
              cases hrec : validateEntries (i + 1) t with
              | error e =>
                  rw [hrec] at h
                  simp [Except.map] at h
              | ok r0 =>
                  rw [hrec] at h
                  simp only [Except.map, Except.ok.injEq] at h
                  subst h
                  obtain ⟨hr0, hall⟩ := validateEntries_ok hrec
                  subst hr0
                  refine ⟨by simp [objFields], ?_⟩
                  intro z hz
                  rcases List.mem_cons.mp hz with h1 | h1
                  · subst h1
                    exact ⟨f, rfl, ⟨n, hp⟩, ⟨s, hd, hs⟩⟩
                  · exact hall z h1
          next dv hd hne => simp at h
        next pv hp hne => simp at h
      next x hne => simp at h

theorem validateEntries_all_good : ∀ {l : List JVal} (i : Nat),
    (∀ x ∈ l, goodEntry x) → validateEntries i l = .ok (objFields l)
  | [], _, _ => rfl
  | x :: t, i, hall => by
      obtain ⟨f, hf, ⟨n, hp⟩, ⟨s, hd, hs⟩⟩ := hall x (List.mem_cons_self _ _)
      subst hf
      simp only [validateEntries, hp, hd]
      rw [if_neg hs]
      rw [validateEntries_all_good (i + 1)
        (fun z hz => hall z (List.mem_cons_of_mem _ hz))]
      rfl

theorem validateEntries_error_of_bad : ∀ {l : List JVal} (i : Nat),
    (∃ x ∈ l, ¬goodEntry x) → ∃ e, validateEntries i l = .error e
  | [], _, h => by simp at h
  | x :: t, i, h => by
      by_cases hx : goodEntry x
      · obtain ⟨f, hf, ⟨n, hp⟩, ⟨s, hd, hs⟩⟩ := hx
        subst hf
        have ht : ∃ z ∈ t, ¬goodEntry z := by
          rcases h with ⟨z, hz, hbad⟩
          rcases List.mem_cons.mp hz with h1 | h1
          · subst h1
            exact absurd ⟨f, rfl, ⟨n, hp⟩, ⟨s, hd, hs⟩⟩ hbad
          · exact ⟨z, h1, hbad⟩
        obtain ⟨e, he⟩ := validateEntries_error_of_bad (i + 1) ht
        refine ⟨e, ?_⟩
        simp only [validateEntries, hp, hd]
        rw [if_neg hs, he]
        rfl
      · cases x with
        | jobj f =>
            cases hp : jGet f "priority" with
            | none => exact ⟨.missingPriority i, by simp [validateEntries, hp]⟩
            | some pv =>
                cases pv with
                | jint n =>
                    cases hd : jGet f "die_type" with
                    | none =>
                        exact ⟨.missingDieType i, by simp [validateEntries, hp, hd]⟩
                    | some dv =>
                        cases dv with
                        | jstr s =>
                            by_cases hs : pyStrip s = ""
                            · exact ⟨.dieTypeInvalid i,
                                by simp [validateEntries, hp, hd, hs]⟩
                            · exact absurd ⟨f, rfl, ⟨n, hp⟩, ⟨s, hd, hs⟩⟩ hx
                        | jnull =>
                            exact ⟨.dieTypeInvalid i, by simp [validateEntries, hp, hd]⟩
                        | jint m =>
                            exact ⟨.dieTypeInvalid i, by simp [validateEntries, hp, hd]⟩
                        | jnum q =>
                            exact ⟨.dieTypeInvalid i, by simp [validateEntries, hp, hd]⟩
                        | jarr a =>
                            exact ⟨.dieTypeInvalid i, by simp [validateEntries, hp, hd]⟩
                        | jobj o =>
                            exact ⟨.dieTypeInvalid i, by simp [validateEntries, hp, hd]⟩
                | jnull => exact ⟨.priorityNotInt i, by simp [validateEntries, hp]⟩
                | jnum q => exact ⟨.priorityNotInt i, by simp [validateEntries, hp]⟩
                | jstr s => exact ⟨.priorityNotInt i, by simp [validateEntries, hp]⟩
                | jarr a => exact ⟨.priorityNotInt i, by simp [validateEntries, hp]⟩
                | jobj o => exact ⟨.priorityNotInt i, by simp [validateEntries, hp]⟩
        | jnull => exact ⟨.entryNotObject i, by simp [validateEntries]⟩
        | jint n => exact ⟨.entryNotObject i, by simp [validateEntries]⟩
        | jnum q => exact ⟨.entryNotObject i, by simp [validateEntries]⟩
        | jstr s => exact ⟨.entryNotObject i, by simp [validateEntries]⟩
        | jarr a => exact ⟨.entryNotObject i, by simp [validateEntries]⟩

theorem insertByPrio_perm (f : JObj) :
    ∀ (l : List JObj), List.Perm (insertByPrio f l) (f :: l)
  | [] => List.Perm.refl _
  | x :: t => by
      simp only [insertByPrio]
      by_cases h : priorityOf f ≤ priorityOf x
      · rw [if_pos h]
        exact ((insertByPrio_perm f t).cons x).trans (List.Perm.swap f x t)
      · rw [if_neg h]

theorem sortByPrioDesc_perm_aux :
    ∀ (l : List JObj) (acc : List JObj),
      List.Perm (List.foldl (fun a f => insertByPrio f a) acc l) (acc ++ l)
  | [], acc => by simp
  | x :: t, acc => by
      rw [List.foldl_cons]
      have h1 : List.Perm (insertByPrio x acc) (x :: acc) := insertByPrio_perm x acc
      refine (sortByPrioDesc_perm_aux t _).trans ?_
      refine (h1.append_right t).trans ?_
      rw [List.cons_append]
      exact List.perm_middle.symm

theorem sortByPrioDesc_perm (l : List JObj) :
    List.Perm (sortByPrioDesc l) l :=
  sortByPrioDesc_perm_aux l []

theorem insertByPrio_pairwise {f : JObj} :
    ∀ {l : List JObj},
      List.Pairwise (fun a b => priorityOf b ≤ priorityOf a) l →
      List.Pairwise (fun a b => priorityOf b ≤ priorityOf a) (insertByPrio f l)
  | [], _ => List.pairwise_singleton _ _
  | x :: t, h => by
      simp only [insertByPrio]
      rcases List.pairwise_cons.mp h with ⟨hx, ht⟩
      by_cases hc : priorityOf f ≤ priorityOf x
      · rw [if_pos hc]
        refine List.pairwise_cons.mpr ⟨?_, insertByPrio_pairwise ht⟩
        intro b hb
        have := (insertByPrio_perm f t).mem_iff.mp hb
        rcases List.mem_cons.mp this with h1 | h1
        · subst h1
          exact hc
        · exact hx b h1
      · rw [if_neg hc]
        refine List.pairwise_cons.mpr ⟨?_, h⟩
        intro b hb
        rcases List.mem_cons.mp hb with h1 | h1
        · subst h1
          omega
        · exact le_trans (hx b h1) (by omega)

theorem sortByPrioDesc_pairwise_aux :
    ∀ (l : List JObj) (acc : List JObj),
      List.Pairwise (fun a b => priorityOf b ≤ priorityOf a) acc →
      List.Pairwise (fun a b => priorityOf b ≤ priorityOf a)
        (List.foldl (fun a f => insertByPrio f a) acc l)
  | [], _, h => h
  | x :: t, acc, h => by
      rw [List.foldl_cons]
      exact sortByPrioDesc_pairwise_aux t _ (insertByPrio_pairwise h)

theorem sortByPrioDesc_pairwise (l : List JObj) :
    List.Pairwise (fun a b => priorityOf b ≤ priorityOf a) (sortByPrioDesc l) :=
  sortByPrioDesc_pairwise_aux l [] List.Pairwise.nil

theorem filter_insertByPrio {f : JObj} {p : Int} :
    ∀ {l : List JObj},
      List.Pairwise (fun a b => priorityOf b ≤ priorityOf a) l →
      (insertByPrio f l).filter (fun x => priorityOf x == p) =
        l.filter (fun x => priorityOf x == p) ++
          (if priorityOf f == p then [f] else [])
  | [], _ => by
      simp only [insertByPrio, List.filter]
      by_cases h : priorityOf f = p
      · have hb : (priorityOf f == p) = true := by simpa using h
        simp [hb]
      · have hb : (priorityOf f == p) = false := by simpa using h
        simp [hb]
  | x :: t, h => by
      simp only [insertByPrio]
      rcases List.pairwise_cons.mp h with ⟨hx, ht⟩
      by_cases hc : priorityOf f ≤ priorityOf x
      · rw [if_pos hc]
        rw [List.filter_cons, List.filter_cons]
        by_cases hxp : (priorityOf x == p) = true
        · rw [if_pos hxp, if_pos hxp]
          rw [filter_insertByPrio ht]
          simp
        · rw [if_neg hxp, if_neg hxp]
          exact filter_insertByPrio ht
      · rw [if_neg hc]
        have hlt : priorityOf x < priorityOf f := by omega
        rw [List.filter_cons]
        by_cases hfp : priorityOf f = p
        · have hb : (priorityOf f == p) = true := by simpa using hfp
          rw [if_pos hb]
          have hnil : (x :: t).filter (fun z => priorityOf z == p) = [] := by
            rw [List.filter_eq_nil_iff]
            intro z hz
            have hzle : priorityOf z ≤ priorityOf x := by
              rcases List.mem_cons.mp hz with h1 | h1
              · subst h1; exact le_refl _
              · exact hx z h1
            have : priorityOf z ≠ p := by omega
            simpa using this
          rw [hnil]
          simp [hb]
        · have hb : (priorityOf f == p) = false := by simpa using hfp
          rw [if_neg (by simp [hb])]
          rw [List.filter_cons]
          simp [hb]

theorem filter_sortByPrioDesc_aux {p : Int} :
    ∀ (l : List JObj) (acc : List JObj),
      List.Pairwise (fun a b => priorityOf b ≤ priorityOf a) acc →
      (List.foldl (fun a f => insertByPrio f a) acc l).filter
          (fun x => priorityOf x == p) =
        acc.filter (fun x => priorityOf x == p) ++
          l.filter (fun x => priorityOf x == p)
  | [], acc, _ => by simp
  | x :: t, acc, h => by
      rw [List.foldl_cons]
      rw [filter_sortByPrioDesc_aux t (insertByPrio x acc) (insertByPrio_pairwise h)]
      rw [filter_insertByPrio h]
      rw [List.filter_cons]
      by_cases hxp : (priorityOf x == p) = true
      · rw [if_pos hxp, if_pos hxp]
        simp
      · rw [if_neg hxp, if_neg (by simpa using hxp)]
        simp

/-- Stability of the loader's sort: for every priority value, the entries
of that priority appear in the sorted output exactly in document order. -/
theorem filter_sortByPrioDesc (l : List JObj) (p : Int) :
    (sortByPrioDesc l).filter (fun x => priorityOf x == p) =
      l.filter (fun x => priorityOf x == p) := by
  have := filter_sortByPrioDesc_aux (p := p) l [] List.Pairwise.nil
  simpa using this

/-- Counterexample for claim C6 as stated: the claim's error condition
reads `lacks a non-empty string die_type`, but the loader also rejects a
die_type that is a NON-empty, all-whitespace string.  The document below
is a list of objects, each with an integer priority and a non-empty string
die_type, yet load_database raises the structural error. -/
theorem load_database_blank_die_type_counterexample :
    load_database
        (.jarr [.jobj [("priority", .jint 1), ("die_type", .jstr " ")]]) =
      .error (.dieTypeInvalid 0) ∧
    jGet [("priority", JVal.jint 1), ("die_type", JVal.jstr " ")] "die_type" =
      some (.jstr " ") ∧
    (" " : String) ≠ "" := by
  refine ⟨rfl, rfl, by decide⟩

/-- Claim C6 (amended): load_database raises a distinguishable structural
error if and only if the document is not a list, some element is not an
object, some element lacks an integer priority, or some element lacks a
string die_type that is non-blank (non-empty after stripping whitespace);
on success it returns all entries unchanged (unrecognized keys preserved),
stably sorted by descending priority: the result is a permutation of the
element objects, pairwise sorted by descending priority, and for every
priority value the entries at that priority keep their document order. -/
theorem load_database_spec (doc : JVal) :
    ((∃ e, load_database doc = .error e) ↔
      ¬∃ l, doc = JVal.jarr l ∧ ∀ x ∈ l, goodEntry x) ∧
    (∀ l, doc = JVal.jarr l → (∀ x ∈ l, goodEntry x) →
      load_database doc = .ok (sortByPrioDesc (objFields l)) ∧
      List.Perm (sortByPrioDesc (objFields l)) (objFields l) ∧
      List.Pairwise (fun a b => priorityOf b ≤ priorityOf a)
        (sortByPrioDesc (objFields l)) ∧
      ∀ p : Int,
        (sortByPrioDesc (objFields l)).filter (fun x => priorityOf x == p) =
          (objFields l).filter (fun x => priorityOf x == p)) := by
  constructor
  · constructor
    · rintro ⟨e, he⟩ ⟨l, hl, hall⟩
      subst hl
      simp only [load_database] at he
      rw [validateEntries_all_good 0 hall] at he
      cases he
    · intro hno
      cases doc with
      | jarr l =>
          have hbad : ∃ x ∈ l, ¬goodEntry x := by
            by_contra hc
            push_neg at hc
            exact hno ⟨l, rfl, hc⟩
          obtain ⟨e, he⟩ := validateEntries_error_of_bad 0 hbad
          refine ⟨e, ?_⟩
          simp only [load_database]
          rw [he]
          rfl
      | jnull => exact ⟨.notList, rfl⟩
      | jint n => exact ⟨.notList, rfl⟩
      | jnum q => exact ⟨.notList, rfl⟩
      | jstr s => exact ⟨.notList, rfl⟩
      | jobj o => exact ⟨.notList, rfl⟩
  · intro l hl hall
    subst hl
    refine ⟨?_, sortByPrioDesc_perm _, sortByPrioDesc_pairwise _,
      fun p => filter_sortByPrioDesc _ p⟩
    simp only [load_database]
    rw [validateEntries_all_good 0 hall]
    rfl

/-- Witness for C6 (amended) at a concrete two-entry document: loading
succeeds and returns the entries sorted by descending priority with all
keys preserved. -/
theorem load_database_spec_witness :
    load_database
        (.jarr
          [.jobj [("priority", .jint 1), ("die_type", .jstr "B-die"),
                  ("vendor_note", .jstr "kept")],
           .jobj [("priority", .jint 5), ("die_type", .jstr "A-die")]]) =
      .ok
        [[("priority", JVal.jint 5), ("die_type", JVal.jstr "A-die")],
         [("priority", JVal.jint 1), ("die_type", JVal.jstr "B-die"),
          ("vendor_note", JVal.jstr "kept")]] := by
  have h := (load_database_spec
    (.jarr
      [.jobj [("priority", .jint 1), ("die_type", .jstr "B-die"),
              ("vendor_note", .jstr "kept")],
       .jobj [("priority", .jint 5), ("die_type", .jstr "A-die")]])).2
    [.jobj [("priority", .jint 1), ("die_type", .jstr "B-die"),
            ("vendor_note", .jstr "kept")],
     .jobj [("priority", .jint 5), ("die_type", .jstr "A-die")]]
    rfl
    (by
      intro x hx
      rcases List.mem_cons.mp hx with h1 | h1
      · exact ⟨_, h1, ⟨1, rfl⟩, ⟨"B-die", rfl, by decide⟩⟩
      · rcases List.mem_cons.mp h1 with h2 | h2
        · exact ⟨_, h2, ⟨5, rfl⟩, ⟨"A-die", rfl, by decide⟩⟩
        · exact absurd h2 (List.not_mem_nil _))
  rw [h.1]
  rfl


/-! ### Dictionary lookup lemmas for the normalizer -/

theorem dGet_append_none {a b : PDict} {k : String} (h : dGet a k = none) :
    dGet (a ++ b) k = dGet b k := by
  have hf : a.find? (fun p => p.1 = k) = none := by
    cases hfa : a.find? (fun p => p.1 = k) with
    | none => rfl
    | some p => simp [dGet, hfa] at h
  simp [dGet, List.find?_append, hf]

theorem dGet_append_some {a b : PDict} {k : String} {v : PVal}
    (h : dGet a k = some v) : dGet (a ++ b) k = some v := by
  cases hfa : a.find? (fun p => p.1 = k) with
  | none => simp [dGet, hfa] at h
  | some p =>
      simp [dGet, hfa] at h
      simp [dGet, List.find?_append, hfa, h]

theorem dGet_eq_none_of_keys {d : PDict} {k : String}
    (h : ∀ p ∈ d, p.1 ≠ k) : dGet d k = none := by
  have hf : d.find? (fun p => p.1 = k) = none := by
    rw [List.find?_eq_none]
    intro p hp
    simp [h p hp]
  simp [dGet, hf]

theorem mem_normGenField {raw : PDict} {p : String × PVal}
    (hp : p ∈ normGenField raw) : p.1 = "generation" := by
  unfold normGenField at hp
  split at hp <;> simp_all

theorem mem_normManufacturerField {raw : PDict} {p : String × PVal}
    (hp : p ∈ normManufacturerField raw) : p.1 = "manufacturer" := by
  unfold normManufacturerField at hp
  split at hp <;> simp_all

theorem mem_normDramMfgField {raw : PDict} {p : String × PVal}
    (hp : p ∈ normDramMfgField raw) : p.1 = "dram_mfg" := by
  unfold normDramMfgField at hp
  split at hp <;> simp_all

theorem mem_normModuleGbField {raw : PDict} {p : String × PVal}
    (hp : p ∈ normModuleGbField raw) : p.1 = "module_gb" := by
  unfold normModuleGbField at hp
  split at hp <;> simp_all

theorem mem_normRanksField {raw : PDict} {p : String × PVal}
    (hp : p ∈ normRanksField raw) : p.1 = "module_ranks" := by
  unfold normRanksField at hp
  split at hp <;> simp_all

theorem mem_normChipOrgField {raw : PDict} {p : String × PVal}
    (hp : p ∈ normChipOrgField raw) : p.1 = "chip_org" := by
  unfold normChipOrgField at hp
  split at hp <;> simp_all

theorem mem_normPartNumberField {raw : PDict} {p : String × PVal}
    (hp : p ∈ normPartNumberField raw) : p.1 = "module_part_number" := by
  unfold normPartNumberField at hp
  split at hp <;> simp_all

theorem mem_normStickerFields {raw : PDict} {p : String × PVal}
    (hp : p ∈ normStickerFields raw) :
    p.1 ∈ ["gskill_sticker_code", "corsair_version", "crucial_sticker_suffix",
      "hynix_ic_part_number"] := by
  unfold normStickerFields at hp
  rcases List.mem_filterMap.mp hp with ⟨k, hk, hval⟩
  cases hg : dGet raw k with
  | none => rw [hg] at hval; cases hval
  | some v =>
      rw [hg] at hval
      by_cases ht : pvTruthy v = true
      · by_cases hs : pyStrip (pvStr v) = ""
        · simp [ht, hs] at hval
        · simp [ht, hs] at hval
          subst hval
          simpa using hk
      · simp [ht] at hval

theorem sticker_key_ne {raw : PDict} {p : String × PVal}
    (hp : p ∈ normStickerFields raw) (k : String)
    (hk : k ∉ ["gskill_sticker_code", "corsair_version", "crucial_sticker_suffix",
      "hynix_ic_part_number"]) : p.1 ≠ k :=
  fun he => hk (he ▸ mem_normStickerFields hp)

theorem mem_normTimingsXmpField {raw : PDict} {p : String × PVal}
    (hp : p ∈ normTimingsXmpField raw) : p.1 = "timings_xmp" := by
  unfold normTimingsXmpField at hp
  split at hp
  · split at hp <;> simp_all
  · simp_all

theorem mem_normTimingsJdecField {raw : PDict} {p : String × PVal}
    (hp : p ∈ normTimingsJdecField raw) : p.1 = "timings_jdec" := by
  unfold normTimingsJdecField at hp
  cases ho : orChain raw ["timings_jdec", "timings_jedec", "JEDEC Timings"] with
  | none => rw [ho] at hp; cases hp
  | some v =>
      rw [ho] at hp
      by_cases ht : pvTruthy v = true
      · by_cases hs : pyStrip (pvStr v) = ""
        · simp [ht, hs] at hp
        · simp [ht, hs] at hp
          rw [hp]
      · simp [ht] at hp

theorem mem_normVoltageXmpField {raw : PDict} {p : String × PVal}
    (hp : p ∈ normVoltageXmpField raw) : p.1 = "voltage_xmp" := by
  unfold normVoltageXmpField at hp
  cases ho : orChain raw ["voltage_xmp", "XMP Voltage", "Voltage XMP"] with
  | none => rw [ho] at hp; cases hp
  | some v =>
      rw [ho] at hp
      cases v with
      | pint n =>
          simp at hp
          rw [hp]
      | pnum q =>
          simp at hp
          rw [hp]
      | pstr s0 =>
          cases hl : leadingNum (pyStrip s0).data with
          | some m =>
              simp [hl] at hp
              rw [hp]
          | none =>
              by_cases hs : pyStrip s0 = ""
              · simp [hs, leadingNum] at hp
              · simp [hl, hs] at hp
                rw [hp]

theorem mem_normVoltageJdecField {raw : PDict} {p : String × PVal}
    (hp : p ∈ normVoltageJdecField raw) : p.1 = "voltage_jdec" := by
  unfold normVoltageJdecField at hp
  cases ho : orChain raw ["JEDEC_voltage", "Module Nominal Voltage", "Nominal Voltage"] with
  | none => rw [ho] at hp; cases hp
  | some v =>
      rw [ho] at hp
      cases v with
      | pint n =>
          simp at hp
          rw [hp]
      | pnum q =>
          simp at hp
          rw [hp]
      | pstr s0 =>
          cases hl : leadingNum (pyStrip s0).data with
          | some m =>
              simp [hl] at hp
              rw [hp]
          | none => simp [hl] at hp

theorem normalize_generation_lookup (raw : PDict) :
    dGet (normalize_dimm_data raw) "generation" =
      (normGenValue raw).map PVal.pstr := by
  unfold normalize_dimm_data
  cases hg : normGenValue raw with
  | some g =>
      have : dGet (normGenField raw) "generation" = some (.pstr g) := by
        unfold normGenField
        rw [hg]
        simp [dGet, List.find?]
      rw [dGet_append_some this]
      rfl
  | none =>
      have h0 : dGet (normGenField raw) "generation" = none := by
        unfold normGenField
        rw [hg]
        rfl
      rw [dGet_append_none h0, dGet_append_none (dGet_eq_none_of_keys
        (fun p hp => by rw [mem_normManufacturerField hp]; decide))]
      rw [dGet_append_none (dGet_eq_none_of_keys
        (fun p hp => by rw [mem_normDramMfgField hp]; decide))]
      rw [dGet_append_none (dGet_eq_none_of_keys
        (fun p hp => by rw [mem_normModuleGbField hp]; decide))]
      rw [dGet_append_none (dGet_eq_none_of_keys
        (fun p hp => by rw [mem_normRanksField hp]; decide))]
      rw [dGet_append_none (dGet_eq_none_of_keys
        (fun p hp => by rw [mem_normChipOrgField hp]; decide))]
      rw [dGet_append_none (dGet_eq_none_of_keys
        (fun p hp => by rw [mem_normPartNumberField hp]; decide))]
      rw [dGet_append_none (dGet_eq_none_of_keys
        (fun p hp => sticker_key_ne hp "generation" (by decide)))]
      rw [dGet_append_none (dGet_eq_none_of_keys
        (fun p hp => by rw [mem_normTimingsXmpField hp]; decide))]
      rw [dGet_append_none (dGet_eq_none_of_keys
        (fun p hp => by rw [mem_normTimingsJdecField hp]; decide))]
      rw [dGet_append_none (dGet_eq_none_of_keys
        (fun p hp => by rw [mem_normVoltageXmpField hp]; decide))]
      exact dGet_eq_none_of_keys
        (fun p hp => by rw [mem_normVoltageJdecField hp]; decide)

theorem normalize_module_gb_lookup (raw : PDict) :
    dGet (normalize_dimm_data raw) "module_gb" =
      match _parse_module_gb (moduleGbSource raw) with
      | some q => some (if q.den = 1 then PVal.pint q.num else PVal.pnum q)
      | none => none := by
  unfold normalize_dimm_data
  rw [dGet_append_none (dGet_eq_none_of_keys
    (fun p hp => by rw [mem_normGenField hp]; decide))]
  rw [dGet_append_none (dGet_eq_none_of_keys
    (fun p hp => by rw [mem_normManufacturerField hp]; decide))]
  rw [dGet_append_none (dGet_eq_none_of_keys
    (fun p hp => by rw [mem_normDramMfgField hp]; decide))]
  cases hg : _parse_module_gb (moduleGbSource raw) with
  | some q =>
      have hx : dGet (normModuleGbField raw) "module_gb" =
          some (if q.den = 1 then PVal.pint q.num else PVal.pnum q) := by
        unfold normModuleGbField
        rw [hg]
        simp [dGet, List.find?]
      rw [dGet_append_some hx]
  | none =>
      have h0 : dGet (normModuleGbField raw) "module_gb" = none := by
        unfold normModuleGbField
        rw [hg]
        rfl
      rw [dGet_append_none h0]
      rw [dGet_append_none (dGet_eq_none_of_keys
        (fun p hp => by rw [mem_normRanksField hp]; decide))]
      rw [dGet_append_none (dGet_eq_none_of_keys
        (fun p hp => by rw [mem_normChipOrgField hp]; decide))]
      rw [dGet_append_none (dGet_eq_none_of_keys
        (fun p hp => by rw [mem_normPartNumberField hp]; decide))]
      rw [dGet_append_none (dGet_eq_none_of_keys
        (fun p hp => sticker_key_ne hp "module_gb" (by decide)))]
      rw [dGet_append_none (dGet_eq_none_of_keys
        (fun p hp => by rw [mem_normTimingsXmpField hp]; decide))]
      rw [dGet_append_none (dGet_eq_none_of_keys
        (fun p hp => by rw [mem_normTimingsJdecField hp]; decide))]
      rw [dGet_append_none (dGet_eq_none_of_keys
        (fun p hp => by rw [mem_normVoltageXmpField hp]; decide))]
      exact dGet_eq_none_of_keys
        (fun p hp => by rw [mem_normVoltageJdecField hp]; decide)

theorem normalize_timings_xmp_lookup (raw : PDict) :
    dGet (normalize_dimm_data raw) "timings_xmp" =
      match normTimingsXmpValue raw with
      | some t => if t ≠ "" then some (PVal.pstr t) else none
      | none => none := by
  unfold normalize_dimm_data
  rw [dGet_append_none (dGet_eq_none_of_keys
    (fun p hp => by rw [mem_normGenField hp]; decide))]
  rw [dGet_append_none (dGet_eq_none_of_keys
    (fun p hp => by rw [mem_normManufacturerField hp]; decide))]
  rw [dGet_append_none (dGet_eq_none_of_keys
    (fun p hp => by rw [mem_normDramMfgField hp]; decide))]
  rw [dGet_append_none (dGet_eq_none_of_keys
    (fun p hp => by rw [mem_normModuleGbField hp]; decide))]
  rw [dGet_append_none (dGet_eq_none_of_keys
    (fun p hp => by rw [mem_normRanksField hp]; decide))]
  rw [dGet_append_none (dGet_eq_none_of_keys
    (fun p hp => by rw [mem_normChipOrgField hp]; decide))]
  rw [dGet_append_none (dGet_eq_none_of_keys
    (fun p hp => by rw [mem_normPartNumberField hp]; decide))]
  rw [dGet_append_none (dGet_eq_none_of_keys
    (fun p hp => sticker_key_ne hp "timings_xmp" (by decide)))]
  cases hg : normTimingsXmpValue raw with
  | some t =>
      by_cases ht : t = ""
      · have h0 : dGet (normTimingsXmpField raw) "timings_xmp" = none := by
          unfold normTimingsXmpField
          rw [hg]
          simp [ht, dGet]
        rw [dGet_append_none h0]
        rw [dGet_append_none (dGet_eq_none_of_keys
          (fun p hp => by rw [mem_normTimingsJdecField hp]; decide))]
        rw [dGet_append_none (dGet_eq_none_of_keys
          (fun p hp => by rw [mem_normVoltageXmpField hp]; decide))]
        rw [dGet_eq_none_of_keys
          (fun p hp => by rw [mem_normVoltageJdecField hp]; decide)]
        simp [ht]
      · have hx : dGet (normTimingsXmpField raw) "timings_xmp" =
            some (PVal.pstr t) := by
          unfold normTimingsXmpField
          rw [hg]
          simp [ht, dGet, List.find?]
        rw [dGet_append_some hx]
        simp [ht]
  | none =>
      have h0 : dGet (normTimingsXmpField raw) "timings_xmp" = none := by
        unfold normTimingsXmpField
        rw [hg]
        rfl
      rw [dGet_append_none h0]
      rw [dGet_append_none (dGet_eq_none_of_keys
        (fun p hp => by rw [mem_normTimingsJdecField hp]; decide))]
      rw [dGet_append_none (dGet_eq_none_of_keys
        (fun p hp => by rw [mem_normVoltageXmpField hp]; decide))]
      exact dGet_eq_none_of_keys
        (fun p hp => by rw [mem_normVoltageJdecField hp]; decide)

/-! ### Claim C9: generation normalization -/

/-- Counterexample for claim C9 as stated: the raw value `DDR SDRAM` has
DDR token `DDR`, which is not one of DDR1..DDR5, yet the normalizer emits
`generation = DDR1` for it (both at the field normalizer and through
`normalize_dimm_data` via the `Memory Type` synonym). -/
theorem normalize_generation_bare_ddr_counterexample :
    _normalize_generation (some (.pstr "DDR SDRAM")) = some "DDR1" ∧
    ddrToken (.pstr "DDR SDRAM") = "DDR" ∧
    "DDR" ∉ ["DDR1", "DDR2", "DDR3", "DDR4", "DDR5"] ∧
    dGet (normalize_dimm_data [("Memory Type", PVal.pstr "DDR SDRAM")])
        "generation" = some (.pstr "DDR1") :=
  ⟨rfl, rfl, by decide, rfl⟩

/-- Claim C9 (amended): the normalizer emits a `generation` field only when
the stripped, uppercased value starts with `DDR` and its DDR token (the
first whitespace token with dash separators removed) is `DDR` or one of
DDR1..DDR5; the emitted value is the token itself except that a bare `DDR`
token is mapped to `DDR1`; any other value is rejected.  The emitted field
is the first hit of the source-key chain `generation`, `Memory Type`,
`DRAM Generation`. -/
theorem normalize_generation_spec :
    (∀ (v : PVal) (g : String),
        _normalize_generation (some v) = some g →
          g ∈ ["DDR1", "DDR2", "DDR3", "DDR4", "DDR5"] ∧
          (ddrToken v = g ∨ (ddrToken v = "DDR" ∧ g = "DDR1"))) ∧
    (∀ v : PVal,
        ddrToken v ∉ ["DDR", "DDR1", "DDR2", "DDR3", "DDR4", "DDR5"] →
          _normalize_generation (some v) = none) ∧
    (∀ v : PVal, pyStartsWith (pyUpper (pyStrip (pvStr v))) "DDR" = false →
        _normalize_generation (some v) = none) ∧
    (∀ raw : PDict,
        dGet (normalize_dimm_data raw) "generation" =
          (normGenValue raw).map PVal.pstr) := by
  refine ⟨?_, ?_, ?_, normalize_generation_lookup⟩
  · intro v g h
    simp only [_normalize_generation] at h
    by_cases ht : pvTruthy v = true
    · rw [if_pos ht] at h
      by_cases hst : pyStartsWith (pyUpper (pyStrip (pvStr v))) "DDR" = true
      · rw [if_pos hst] at h
        by_cases h1 : ddrToken v = "DDR" ∨ ddrToken v = "DDR1"
        · rw [if_pos h1] at h
          cases h
          exact ⟨by decide, by tauto⟩
        · rw [if_neg h1] at h
          by_cases h2 : ddrToken v = "DDR2"
          · rw [if_pos h2] at h
            cases h
            exact ⟨by decide, Or.inl h2⟩
          · rw [if_neg h2] at h
            by_cases h3 : ddrToken v = "DDR3"
            · rw [if_pos h3] at h
              cases h
              exact ⟨by decide, Or.inl h3⟩
            · rw [if_neg h3] at h
              by_cases h4 : ddrToken v = "DDR4"
              · rw [if_pos h4] at h
                cases h
                exact ⟨by decide, Or.inl h4⟩
              · rw [if_neg h4] at h
                by_cases h5 : ddrToken v = "DDR5"
                · rw [if_pos h5] at h
                  cases h
                  exact ⟨by decide, Or.inl h5⟩
                · rw [if_neg h5] at h
                  cases h
      · rw [if_neg hst] at h
        cases h
    · rw [if_neg ht] at h
      cases h
  · intro v hv
    simp only [List.mem_cons, List.not_mem_nil, or_false, not_or] at hv
    obtain ⟨h0, h1, h2, h3, h4, h5⟩ := hv
    simp only [_normalize_generation]
    by_cases ht : pvTruthy v = true
    · rw [if_pos ht]
      by_cases hst : pyStartsWith (pyUpper (pyStrip (pvStr v))) "DDR" = true
      · rw [if_pos hst]
        rw [if_neg (by tauto), if_neg h2, if_neg h3, if_neg h4, if_neg h5]
      · rw [if_neg hst]
    · rw [if_neg ht]
  · intro v hst
    simp only [_normalize_generation]
    by_cases ht : pvTruthy v = true
    · rw [if_pos ht]
      rw [if_neg (by simp [hst])]
    · rw [if_neg ht]

/-- Witness for C9 (amended): concrete values — `ddr4 sdram` normalizes to
DDR4, `DDR-5` to DDR5, and `LPDDR4` (token not in the vocabulary after the
start check) is rejected. -/
theorem normalize_generation_spec_witness :
    ("DDR4" ∈ ["DDR1", "DDR2", "DDR3", "DDR4", "DDR5"] ∧
      (ddrToken (.pstr "ddr4 sdram") = "DDR4" ∨
        (ddrToken (.pstr "ddr4 sdram") = "DDR" ∧ "DDR4" = "DDR1"))) ∧
    _normalize_generation (some (.pstr "DDR66")) = none ∧
    dGet (normalize_dimm_data [("Memory Type", PVal.pstr "ddr4 sdram")])
        "generation" = (normGenValue [("Memory Type", PVal.pstr "ddr4 sdram")]).map
          PVal.pstr := by
  refine ⟨normalize_generation_spec.1 (.pstr "ddr4 sdram") "DDR4" (by rfl), ?_, ?_⟩
  · exact normalize_generation_spec.2.1 (.pstr "DDR66") (by decide)
  · exact normalize_generation_spec.2.2.2 [("Memory Type", PVal.pstr "ddr4 sdram")]

/-! ### Claim C7: module_gb normalization -/

theorem digit_not_space {c : Char} (h : c.isDigit = true) : pyIsSpace c = false := by
  simp only [Char.isDigit] at h
  simp only [pyIsSpace]
  have h1 : 48 ≤ c.toNat ∧ c.toNat ≤ 57 := by
    simp only [Bool.and_eq_true, decide_eq_true_eq] at h
    rcases h with ⟨ha, hb⟩
    constructor
    · have : ('0' : Char).toNat = 48 := by decide
      calc 48 = ('0' : Char).toNat := this.symm
        _ ≤ c.toNat := ha
    · have : ('9' : Char).toNat = 57 := by decide
      calc c.toNat ≤ ('9' : Char).toNat := hb
        _ = 57 := this
  have hne : ∀ d : Char, d.toNat ≠ c.toNat → (c = d : Bool) = false := by
    intro d hd
    simp only [decide_eq_false_iff_not]
    intro he
    exact hd (by rw [he])
  rw [hne ' ' (by simp only [show (' ' : Char).toNat = 32 from rfl]; omega),
    hne '\t' (by simp only [show ('\t' : Char).toNat = 9 from rfl]; omega),
    hne '\n' (by simp only [show ('\n' : Char).toNat = 10 from rfl]; omega),
    hne '\x0d' (by simp only [show ('\x0d' : Char).toNat = 13 from rfl]; omega),
    hne '\x0b' (by simp only [show ('\x0b' : Char).toNat = 11 from rfl]; omega),
    hne '\x0c' (by simp only [show ('\x0c' : Char).toNat = 12 from rfl]; omega)]
  rfl

theorem toUpper_digit {c : Char} (h : c.isDigit = true) : c.toUpper = c := by
  simp only [Char.isDigit, Bool.and_eq_true, decide_eq_true_eq] at h
  have h57 : c.toNat ≤ 57 := by
    calc c.toNat ≤ ('9' : Char).toNat := h.2
      _ = 57 := by decide
  simp only [Char.toUpper]
  rw [if_neg (by omega)]

theorem map_toUpper_digits : ∀ {ds : List Char}, ds.all Char.isDigit = true →
    ds.map Char.toUpper = ds
  | [], _ => rfl
  | c :: t, h => by
      simp only [List.all_cons, Bool.and_eq_true] at h
      simp only [List.map_cons, toUpper_digit h.1, map_toUpper_digits h.2]

theorem lstrip_cons_no {c : Char} {t : List Char} (h : pyIsSpace c = false) :
    lstripChars (c :: t) = c :: t := by
  simp [lstripChars, List.dropWhile_cons, h]

theorem rstrip_last_no {a : List Char} {c : Char} (h : pyIsSpace c = false) :
    rstripChars (a ++ [c]) = a ++ [c] := by
  simp only [rstripChars, List.reverse_append, List.reverse_cons, List.reverse_nil,
    List.nil_append, List.singleton_append, List.dropWhile_cons, h]
  simp

theorem takeWhile_digits_append {r : List Char}
    (hr : ∀ c, r.head? = some c → c.isDigit = false) :
    ∀ {ds : List Char}, ds.all Char.isDigit = true →
      (ds ++ r).takeWhile Char.isDigit = ds ∧
        (ds ++ r).dropWhile Char.isDigit = r
  | [], _ => by
      cases r with
      | nil => exact ⟨rfl, rfl⟩
      | cons c t =>
          have := hr c rfl
          constructor
          · simp [List.takeWhile_cons, this]
          · simp [List.dropWhile_cons, this]
  | c :: t, h => by
      simp only [List.all_cons, Bool.and_eq_true] at h
      obtain ⟨ih1, ih2⟩ := takeWhile_digits_append hr h.2
      constructor
      · simp [List.takeWhile_cons, h.1, ih1]
      · simp [List.dropWhile_cons, h.1, ih2]

theorem string_mk_ne_empty {l : List Char} (h : l ≠ []) : String.mk l ≠ "" := by
  intro he
  exact h (congrArg String.data he)

theorem decimalVal_nil_frac (ds : List Char) :
    decimalVal ds [] = ((digitsNat ds : Int) : ℚ) := by
  simp [decimalVal, digitsNat, Rat.mkRat_one]

theorem mkRat_div_helper (q : ℚ) : mkRat q.num (q.den * 1024) = q / 1024 := by
  rw [Rat.mkRat_eq_div]
  push_cast
  rw [div_mul_eq_div_div, Rat.num_div_den]

theorem dropWhile_space_digits {ds r : List Char}
    (hne : ds ≠ []) (hd : ds.all Char.isDigit = true) :
    List.dropWhile pyIsSpace (ds ++ r) = ds ++ r := by
  obtain ⟨c, t, rfl⟩ : ∃ c t, ds = c :: t := by
    cases ds with
    | nil => exact absurd rfl hne
    | cons c t => exact ⟨c, t, rfl⟩
  have hc : c.isDigit = true := by
    simp only [List.all_cons, Bool.and_eq_true] at hd
    exact hd.1
  simp [List.dropWhile_cons, digit_not_space hc]

theorem matchNumUnit_digits_unit {pat : List Char}
    (hp : pat = ['M', 'B'] ∨ pat = ['G', 'B']) {ds : List Char} (hne : ds ≠ [])
    (hd : ds.all Char.isDigit = true) {u : List Char}
    (hu : u = ['M', 'B'] ∨ u = ['G', 'B']) :
    matchNumUnit pat (ds ++ ' ' :: u) =
      if pat = u then some ((digitsNat ds : Int) : ℚ) else none := by
  have hsp : ∀ x, (' ' :: u).head? = some x → x.isDigit = false := by
    intro x hx
    simp only [List.head?, Option.some.injEq] at hx
    rw [← hx]
    decide
  obtain ⟨htake, hdrop⟩ := takeWhile_digits_append hsp hd
  simp only [matchNumUnit]
  rw [dropWhile_space_digits hne hd, htake, hdrop, if_neg hne]
  rcases hp with rfl | rfl <;> rcases hu with rfl | rfl
  · rw [if_pos rfl]
    trans some (decimalVal ds [])
    · rfl
    · rw [decimalVal_nil_frac]
  · rw [if_neg (by decide)]
    rfl
  · rw [if_neg (by decide)]
    rfl
  · rw [if_pos rfl]
    trans some (decimalVal ds [])
    · rfl
    · rw [decimalVal_nil_frac]

theorem matchNumUnit_digits_bare {pat : List Char}
    (hp : pat = ['M', 'B'] ∨ pat = ['G', 'B']) {ds : List Char} (hne : ds ≠ [])
    (hd : ds.all Char.isDigit = true) :
    matchNumUnit pat ds = none := by
  have hsp : ∀ x, ([] : List Char).head? = some x → x.isDigit = false := by
    intro x hx
    simp at hx
  obtain ⟨htake, hdrop⟩ := takeWhile_digits_append hsp hd
  rw [List.append_nil] at htake hdrop
  have hds : List.dropWhile pyIsSpace ds = ds := by
    have := dropWhile_space_digits (r := []) hne hd
    simpa using this
  simp only [matchNumUnit]
  rw [hds, htake, hdrop, if_neg hne]
  rcases hp with rfl | rfl <;> rfl

theorem matchBareNum_digits {ds : List Char} (hne : ds ≠ [])
    (hd : ds.all Char.isDigit = true) :
    matchBareNum ds = some ((digitsNat ds : Int) : ℚ) := by
  have hsp : ∀ x, ([] : List Char).head? = some x → x.isDigit = false := by
    intro x hx
    simp at hx
  obtain ⟨htake, hdrop⟩ := takeWhile_digits_append hsp hd
  rw [List.append_nil] at htake hdrop
  simp only [matchBareNum]
  rw [htake, hdrop, if_neg hne]
  trans some (decimalVal ds [])
  · rfl
  · rw [decimalVal_nil_frac]

theorem rstrip_no_trailing {l : List Char}
    (h : ∀ c, l.getLast? = some c → pyIsSpace c = false) : rstripChars l = l := by
  unfold rstripChars
  cases hr : l.reverse with
  | nil =>
      have : l = [] := by simpa using congrArg List.reverse hr
      subst this
      rfl
  | cons c rest =>
      have hc : l.getLast? = some c := by
        rw [← List.head?_reverse, hr]
        rfl
      rw [List.dropWhile_cons, if_neg (by simp [h c hc])]
      rw [← hr, List.reverse_reverse]

theorem pyStripUpper_digit_tail {ds tail : List Char} (hne : ds ≠ [])
    (hd : ds.all Char.isDigit = true)
    (htail : tail = [' ', 'M', 'B'] ∨ tail = [' ', 'G', 'B'] ∨ tail = []) :
    pyUpper (pyStrip (String.mk (ds ++ tail))) = String.mk (ds ++ tail) := by
  have h1 : stripChars (ds ++ tail) = ds ++ tail := by
    unfold stripChars lstripChars
    rw [dropWhile_space_digits hne hd]
    apply rstrip_no_trailing
    intro c hc
    rcases htail with rfl | rfl | rfl
    · rw [show ds ++ [' ', 'M', 'B'] = (ds ++ [' ', 'M']) ++ ['B'] from by simp,
        List.getLast?_concat] at hc
      cases hc
      decide
    · rw [show ds ++ [' ', 'G', 'B'] = (ds ++ [' ', 'G']) ++ ['B'] from by simp,
        List.getLast?_concat] at hc
      cases hc
      decide
    · rw [List.append_nil] at hc
      have hmem : c ∈ ds := List.mem_of_getLast?_eq_some hc
      have hdig : c.isDigit = true := by
        have := List.all_eq_true.mp hd c hmem
        simpa using this
      exact digit_not_space hdig
  have hmaptail : tail.map Char.toUpper = tail := by
    rcases htail with rfl | rfl | rfl <;> rfl
  calc pyUpper (pyStrip (String.mk (ds ++ tail)))
      = String.mk (List.map Char.toUpper (stripChars (ds ++ tail))) := rfl
    _ = String.mk (List.map Char.toUpper (ds ++ tail)) := by rw [h1]
    _ = String.mk (ds ++ tail) := by
        rw [List.map_append, map_toUpper_digits hd, hmaptail]

theorem parse_module_gb_mb {ds : List Char} (hne : ds ≠ [])
    (hd : ds.all Char.isDigit = true) :
    _parse_module_gb (some (.pstr (String.mk (ds ++ [' ', 'M', 'B'])))) =
      some ((digitsNat ds : ℚ) / 1024) := by
  simp only [_parse_module_gb]
  rw [pyStripUpper_digit_tail hne hd (Or.inl rfl)]
  rw [if_neg (string_mk_ne_empty (by simp))]
  rw [show (String.mk (ds ++ [' ', 'M', 'B'])).data = ds ++ [' ', 'M', 'B'] from rfl]
  rw [matchNumUnit_digits_unit (Or.inl rfl) hne hd (Or.inl rfl)]
  rw [if_pos rfl]
  trans some (mkRat ((digitsNat ds : Int) : ℚ).num (((digitsNat ds : Int) : ℚ).den * 1024))
  · rfl
  · rw [mkRat_div_helper]
    push_cast
    rfl

theorem parse_module_gb_gb {ds : List Char} (hne : ds ≠ [])
    (hd : ds.all Char.isDigit = true) :
    _parse_module_gb (some (.pstr (String.mk (ds ++ [' ', 'G', 'B'])))) =
      some ((digitsNat ds : ℚ)) := by
  simp only [_parse_module_gb]
  rw [pyStripUpper_digit_tail hne hd (Or.inr (Or.inl rfl))]
  rw [if_neg (string_mk_ne_empty (by simp))]
  rw [show (String.mk (ds ++ [' ', 'G', 'B'])).data = ds ++ [' ', 'G', 'B'] from rfl]
  rw [matchNumUnit_digits_unit (Or.inl rfl) hne hd (Or.inr rfl)]
  rw [if_neg (by decide)]
  rw [matchNumUnit_digits_unit (Or.inr rfl) hne hd (Or.inr rfl)]
  rw [if_pos rfl]
  norm_cast

theorem parse_module_gb_bare {ds : List Char} (hne : ds ≠ [])
    (hd : ds.all Char.isDigit = true) :
    _parse_module_gb (some (.pstr (String.mk ds))) = some ((digitsNat ds : ℚ)) := by
  simp only [_parse_module_gb]
  rw [show (String.mk ds) = String.mk (ds ++ []) from by rw [List.append_nil]]
  rw [pyStripUpper_digit_tail hne hd (Or.inr (Or.inr rfl))]
  rw [if_neg (string_mk_ne_empty (by simpa using hne))]
  rw [show (String.mk (ds ++ [])).data = ds from by rw [List.append_nil]]
  rw [matchNumUnit_digits_bare (Or.inl rfl) hne hd]
  rw [matchNumUnit_digits_bare (Or.inr rfl) hne hd]
  rw [matchBareNum_digits hne hd]
  norm_cast

theorem rat_den_one_iff_int (q : ℚ) : q.den = 1 ↔ ∃ n : ℤ, q = (n : ℚ) := by
  constructor
  · intro h
    exact ⟨q.num, ((Rat.den_eq_one_iff q).mp h).symm⟩
  · rintro ⟨n, rfl⟩
    exact Rat.den_intCast n

/-- C7: the `module_gb` field of a normalized record is exactly the value of
`_parse_module_gb` on the first non-falsy capacity source, emitted as a Python
int when the parsed rational is integral (denominator 1, equivalently equal to
an integer) and as a float otherwise; the parser accepts a digit string
followed by ` MB` (divided by 1024), a digit string followed by ` GB`, and a
bare digit string taken as GB, while a string with an unknown unit such as
`16 TB`, a non-numeric string, and a missing value all yield no field. -/
theorem module_gb_normalization_spec :
    (∀ raw : PDict, dGet (normalize_dimm_data raw) "module_gb" =
        match _parse_module_gb (moduleGbSource raw) with
        | some q => some (if q.den = 1 then PVal.pint q.num else PVal.pnum q)
        | none => none)
    ∧ (∀ ds : List Char, ds ≠ [] → ds.all Char.isDigit = true →
        _parse_module_gb (some (.pstr (String.mk (ds ++ [' ', 'M', 'B'])))) =
            some ((digitsNat ds : ℚ) / 1024)
        ∧ _parse_module_gb (some (.pstr (String.mk (ds ++ [' ', 'G', 'B'])))) =
            some ((digitsNat ds : ℚ))
        ∧ _parse_module_gb (some (.pstr (String.mk ds))) =
            some ((digitsNat ds : ℚ)))
    ∧ (∀ q : ℚ, q.den = 1 ↔ ∃ n : ℤ, q = (n : ℚ))
    ∧ _parse_module_gb (some (.pstr "16 TB")) = none
    ∧ _parse_module_gb (some (.pstr "garbage")) = none
    ∧ _parse_module_gb none = none := by
  refine ⟨normalize_module_gb_lookup, ?_, rat_den_one_iff_int, rfl, rfl, rfl⟩
  intro ds hne hd
  exact ⟨parse_module_gb_mb hne hd, parse_module_gb_gb hne hd,
    parse_module_gb_bare hne hd⟩

/-- Witness for C7: the raw record with `Module Capacity` equal to
`16384 MB` normalizes `module_gb` to the Python int `16` (not the float
`16.0`), and the MB acceptance clause applies to the concrete digit string
`16384`. -/
theorem module_gb_normalization_spec_witness :
    dGet (normalize_dimm_data [("Module Capacity", PVal.pstr "16384 MB")])
        "module_gb" = some (PVal.pint 16)
    ∧ (("16384" : String).data ≠ [] ∧
        ("16384" : String).data.all Char.isDigit = true)
    ∧ _parse_module_gb
        (some (.pstr (String.mk (("16384" : String).data ++ [' ', 'M', 'B'])))) =
      some ((digitsNat ("16384" : String).data : ℚ) / 1024) := by
  refine ⟨?_, ⟨by decide, by decide⟩, ?_⟩
  · rw [module_gb_normalization_spec.1 [("Module Capacity", PVal.pstr "16384 MB")]]
    rfl
  · exact (module_gb_normalization_spec.2.1 ("16384" : String).data
      (by decide) (by decide)).1


/-! ### Claim C8: timings_xmp derivation from the part number -/

theorem matchFreqClAt_accepts {g1 g2 rest : List Char}
    (h1 : g1.length = 4) (hd1 : g1.all Char.isDigit = true)
    (h2 : g2.length = 2) (hd2 : g2.all Char.isDigit = true) :
    matchFreqClAt (g1 ++ 'C' :: (g2 ++ rest)) =
      some (String.mk g1 ++ "-" ++ String.mk g2) := by
  simp only [matchFreqClAt]
  rw [List.take_left' h1, List.drop_left' h1]
  rw [if_pos ⟨h1, hd1, rfl⟩]
  rw [show ('C' :: (g2 ++ rest)).drop 1 = g2 ++ rest from rfl]
  rw [List.take_left' h2]
  rw [if_pos ⟨h2, hd2⟩]

theorem matchFullTimingAt_accepts {g1 g2 g3 g4 rest : List Char}
    (h1 : g1.length = 4) (hd1 : g1.all Char.isDigit = true)
    (h2 : g2.length = 2) (hd2 : g2.all Char.isDigit = true)
    (h3 : g3.length = 2) (hd3 : g3.all Char.isDigit = true)
    (h4 : g4.length = 2) (hd4 : g4.all Char.isDigit = true) :
    matchFullTimingAt
        (g1 ++ '-' :: (g2 ++ '-' :: (g3 ++ '-' :: (g4 ++ rest)))) =
      some (String.mk g1 ++ "-" ++ String.mk g2 ++ "-" ++
        String.mk g3 ++ "-" ++ String.mk g4) := by
  simp only [matchFullTimingAt]
  rw [List.take_left' h1, List.drop_left' h1]
  rw [if_pos ⟨h1, hd1, rfl⟩]
  rw [show ('-' :: (g2 ++ '-' :: (g3 ++ '-' :: (g4 ++ rest)))).drop 1 =
    g2 ++ '-' :: (g3 ++ '-' :: (g4 ++ rest)) from rfl]
  rw [List.take_left' h2, List.drop_left' h2]
  rw [if_pos ⟨h2, hd2, rfl⟩]
  rw [show ('-' :: (g3 ++ '-' :: (g4 ++ rest))).drop 1 =
    g3 ++ '-' :: (g4 ++ rest) from rfl]
  rw [List.take_left' h3, List.drop_left' h3]
  rw [if_pos ⟨h3, hd3, rfl⟩]
  rw [show ('-' :: (g4 ++ rest)).drop 1 = g4 ++ rest from rfl]
  rw [List.take_left' h4]
  rw [if_pos ⟨h4, hd4⟩]

theorem parse_xmp_prefers_full {s : String} {r : String}
    (h : searchIn matchFullTimingAt s.data = some r) :
    parse_xmp_from_part_number (some s) = some r := by
  by_cases hs : s = ""
  · subst hs
    rw [show searchIn matchFullTimingAt ("" : String).data = none from rfl] at h
    exact absurd h (by simp)
  · simp only [parse_xmp_from_part_number]
    rw [if_neg hs, h]

theorem parse_xmp_fallback {s : String} (hs : s ≠ "")
    (h : searchIn matchFullTimingAt s.data = none) :
    parse_xmp_from_part_number (some s) = searchIn matchFreqClAt s.data := by
  simp only [parse_xmp_from_part_number]
  rw [if_neg hs, h]

theorem timings_xmp_explicit_precedence {raw : PDict} {v : PVal}
    (hv : dGet raw "timings_xmp" = some v) (ht : pvTruthy v = true) :
    normTimingsXmpValue raw = some (pyStrip (pvStr v)) := by
  unfold normTimingsXmpValue
  rw [hv]
  simp [ht]

theorem timings_xmp_derived_when_absent {raw : PDict}
    (h : dGet raw "timings_xmp" = none) :
    normTimingsXmpValue raw =
      match normPartNumber raw with
      | some p => parse_xmp_from_part_number (some p)
      | none => none := by
  unfold normTimingsXmpValue
  rw [h]

/-- C8: the normalized `timings_xmp` comes from the explicit field when the
raw map carries a truthy `timings_xmp` value (stripped), and is otherwise
derived from the part number; the derivation prefers the four-field dash
pattern `DDDD-DD-DD-DD` whenever it occurs anywhere in the part number and
falls back to the `DDDDCDD` pattern rendered as `DDDD-DD` only when the full
pattern is absent; both positional matchers accept their patterns at any
suffix tail, and the part number `F4-3600C16D-16GTZ` yields `3600-16`. -/
theorem timings_xmp_normalization_spec :
    (∀ raw : PDict, dGet (normalize_dimm_data raw) "timings_xmp" =
        match normTimingsXmpValue raw with
        | some t => if t ≠ "" then some (PVal.pstr t) else none
        | none => none)
    ∧ (∀ raw : PDict, ∀ v : PVal, dGet raw "timings_xmp" = some v →
        pvTruthy v = true → normTimingsXmpValue raw = some (pyStrip (pvStr v)))
    ∧ (∀ raw : PDict, dGet raw "timings_xmp" = none →
        normTimingsXmpValue raw =
          match normPartNumber raw with
          | some p => parse_xmp_from_part_number (some p)
          | none => none)
    ∧ (∀ s r : String, searchIn matchFullTimingAt s.data = some r →
        parse_xmp_from_part_number (some s) = some r)
    ∧ (∀ s : String, s ≠ "" → searchIn matchFullTimingAt s.data = none →
        parse_xmp_from_part_number (some s) = searchIn matchFreqClAt s.data)
    ∧ (∀ g1 g2 g3 g4 rest : List Char,
        g1.length = 4 → g1.all Char.isDigit = true →
        g2.length = 2 → g2.all Char.isDigit = true →
        g3.length = 2 → g3.all Char.isDigit = true →
        g4.length = 2 → g4.all Char.isDigit = true →
        matchFullTimingAt
            (g1 ++ '-' :: (g2 ++ '-' :: (g3 ++ '-' :: (g4 ++ rest)))) =
          some (String.mk g1 ++ "-" ++ String.mk g2 ++ "-" ++
            String.mk g3 ++ "-" ++ String.mk g4))
    ∧ (∀ g1 g2 rest : List Char,
        g1.length = 4 → g1.all Char.isDigit = true →
        g2.length = 2 → g2.all Char.isDigit = true →
        matchFreqClAt (g1 ++ 'C' :: (g2 ++ rest)) =
          some (String.mk g1 ++ "-" ++ String.mk g2))
    ∧ parse_xmp_from_part_number (some "F4-3600C16D-16GTZ") = some "3600-16" := by
  refine ⟨normalize_timings_xmp_lookup,
    fun raw v hv ht => timings_xmp_explicit_precedence hv ht,
    fun raw h => timings_xmp_derived_when_absent h,
    fun s r h => parse_xmp_prefers_full h,
    fun s hs h => parse_xmp_fallback hs h,
    fun g1 g2 g3 g4 rest h1 hd1 h2 hd2 h3 hd3 h4 hd4 =>
      matchFullTimingAt_accepts h1 hd1 h2 hd2 h3 hd3 h4 hd4,
    fun g1 g2 rest h1 hd1 h2 hd2 => matchFreqClAt_accepts h1 hd1 h2 hd2,
    rfl⟩

/-- Witness for C8: on the concrete part number `F4-3600C16D-16GTZ` there is
no four-field match, the fallback applies and produces `3600-16`, the
frequency-plus-CAS matcher accepts the split at `3600`/`16`, and the fully
normalized record carries `timings_xmp = 3600-16`. -/
theorem timings_xmp_normalization_spec_witness :
    (("F4-3600C16D-16GTZ" : String) ≠ "" ∧
      searchIn matchFullTimingAt ("F4-3600C16D-16GTZ" : String).data = none ∧
      parse_xmp_from_part_number (some "F4-3600C16D-16GTZ") =
        searchIn matchFreqClAt ("F4-3600C16D-16GTZ" : String).data ∧
      searchIn matchFreqClAt ("F4-3600C16D-16GTZ" : String).data =
        some "3600-16")
    ∧ matchFreqClAt
        (("3600" : String).data ++ 'C' :: (("16" : String).data ++
          ("D-16GTZ" : String).data)) =
      some (String.mk ("3600" : String).data ++ "-" ++
        String.mk ("16" : String).data)
    ∧ dGet (normalize_dimm_data
          [("Part Number", PVal.pstr "F4-3600C16D-16GTZ")]) "timings_xmp" =
        some (PVal.pstr "3600-16") := by
  refine ⟨⟨by decide, rfl, ?_, rfl⟩, ?_, ?_⟩
  · exact timings_xmp_normalization_spec.2.2.2.2.1 "F4-3600C16D-16GTZ"
      (by decide) rfl
  · exact timings_xmp_normalization_spec.2.2.2.2.2.2.1 ("3600" : String).data
      ("16" : String).data ("D-16GTZ" : String).data
      (by decide) (by decide) (by decide) (by decide)
  · rw [timings_xmp_normalization_spec.1
      [("Part Number", PVal.pstr "F4-3600C16D-16GTZ")]]
    rfl

/-! ### Record and deduplication lemmas for the parser claims -/

theorem sGet_sSet_self (d : SDict) (k v : String) : sGet (sSet d k v) k = some v := by
  induction d with
  | nil => simp [sSet, sGet, List.find?]
  | cons p t ih =>
      obtain ⟨k0, v0⟩ := p
      by_cases h : k0 = k
      · subst h
        simp [sSet, sGet, List.find?]
      · simp [sSet, sGet, List.find?, h]
        simpa [sGet] using ih

theorem sGet_sSet_ne (d : SDict) {k k2 : String} (h : k ≠ k2) (v : String) :
    sGet (sSet d k v) k2 = sGet d k2 := by
  induction d with
  | nil => simp [sSet, sGet, List.find?, h]
  | cons p t ih =>
      obtain ⟨k0, v0⟩ := p
      by_cases hk : k0 = k
      · subst hk
        simp [sSet, sGet, List.find?, h]
      · by_cases h2 : k0 = k2
        · subst h2
          simp [sSet, sGet, List.find?, hk]
        · simp [sSet, sGet, List.find?, hk, h2]
          simpa [sGet] using ih

theorem sGet_sSetdefault_ne (d : SDict) {k k2 : String} (h : k ≠ k2) (v : String) :
    sGet (sSetdefault d k v) k2 = sGet d k2 := by
  unfold sSetdefault
  split
  · rfl
  · simp only [sGet, List.find?_append]
    cases hf : List.find? (fun p => decide (p.1 = k2)) d with
    | some r => simp [hf]
    | none =>
        simp [hf, List.find?, h]

theorem slotOf_sSet_slot (d : SDict) (v : String) : slotOf (sSet d "slot" v) = v := by
  simp [slotOf, sGetD, sGet_sSet_self]

theorem sGet_finalize_slot (d : SDict) : sGet (finalize d) "slot" = sGet d "slot" := by
  have hA : sGet (sSetdefault (sSetdefault d "Additional JEDEC Timings malformed" "")
      "Malformed Line With Too Many Columns" "") "slot" = sGet d "slot" := by
    rw [sGet_sSetdefault_ne _ (by decide), sGet_sSetdefault_ne _ (by decide)]
  simp only [finalize]
  split
  · split
    · exact hA
    · rw [sGet_sSet_ne _ (by decide)]
      exact hA
  · exact hA

theorem slotOf_finalize (d : SDict) : slotOf (finalize d) = slotOf d := by
  simp [slotOf, sGetD, sGet_finalize_slot]

theorem seenAfter_nil (seen : List String) : seenAfter seen [] = seen := rfl

theorem dedupBySlot_append (seen : List String) (a b : List SDict) :
    dedupBySlot seen (a ++ b) =
      dedupBySlot seen a ++ dedupBySlot (seenAfter seen a) b := by
  induction a generalizing seen with
  | nil => simp [dedupBySlot, seenAfter]
  | cons d t ih =>
      by_cases h : slotOf d ≠ "" ∧ slotOf d ∉ seen
      · simp [dedupBySlot, seenAfter, h, ih]
      · simp [dedupBySlot, seenAfter, h, ih]

theorem dedupBySlot_sublist (seen : List String) (l : List SDict) :
    (dedupBySlot seen l).Sublist l := by
  induction l generalizing seen with
  | nil => simp [dedupBySlot]
  | cons d t ih =>
      by_cases h : slotOf d ≠ "" ∧ slotOf d ∉ seen
      · simp only [dedupBySlot, if_pos h]
        exact (ih _).cons₂ d
      · simp only [dedupBySlot, if_neg h]
        exact (ih _).cons d

theorem mem_dedupBySlot {seen : List String} {l : List SDict} {d : SDict}
    (hd : d ∈ dedupBySlot seen l) : slotOf d ≠ "" ∧ slotOf d ∉ seen := by
  induction l generalizing seen with
  | nil => simp [dedupBySlot] at hd
  | cons e t ih =>
      by_cases h : slotOf e ≠ "" ∧ slotOf e ∉ seen
      · simp only [dedupBySlot, if_pos h] at hd
        rcases List.mem_cons.mp hd with rfl | hd
        · exact h
        · have := ih hd
          exact ⟨this.1, fun hs => this.2 (List.mem_cons_of_mem _ hs)⟩
      · simp only [dedupBySlot, if_neg h] at hd
        exact ih hd

theorem dedup_slots_nodup (seen : List String) (l : List SDict) :
    ((dedupBySlot seen l).map slotOf).Nodup := by
  induction l generalizing seen with
  | nil => simp [dedupBySlot]
  | cons d t ih =>
      by_cases h : slotOf d ≠ "" ∧ slotOf d ∉ seen
      · simp only [dedupBySlot, if_pos h, List.map_cons]
        refine List.Nodup.cons ?_ (ih _)
        intro hmem
        obtain ⟨r, hr, hsl⟩ := List.mem_map.mp hmem
        exact (mem_dedupBySlot hr).2 (by rw [hsl]; exact List.mem_cons_self _ _)
      · simp only [dedupBySlot, if_neg h]
        exact ih _

theorem seenAfter_mem_mono {seen : List String} {s : String} (hs : s ∈ seen)
    (l : List SDict) : s ∈ seenAfter seen l := by
  induction l generalizing seen with
  | nil => simpa [seenAfter] using hs
  | cons d t ih =>
      by_cases h : slotOf d ≠ "" ∧ slotOf d ∉ seen
      · simp only [seenAfter, if_pos h]
        exact ih (List.mem_cons_of_mem _ hs)
      · simp only [seenAfter, if_neg h]
        exact ih hs

theorem mem_seenAfter_of_kept {seen : List String} {l : List SDict} {s : String}
    (hs : s ∈ (dedupBySlot seen l).map slotOf) : s ∈ seenAfter seen l := by
  induction l generalizing seen with
  | nil => simp [dedupBySlot] at hs
  | cons d t ih =>
      by_cases h : slotOf d ≠ "" ∧ slotOf d ∉ seen
      · simp only [dedupBySlot, if_pos h, List.map_cons, List.mem_cons] at hs
        simp only [seenAfter, if_pos h]
        rcases hs with rfl | hs
        · exact seenAfter_mem_mono (List.mem_cons_self _ _) t
        · exact ih hs
      · simp only [dedupBySlot, if_neg h] at hs
        simp only [seenAfter, if_neg h]
        exact ih hs

theorem map_slotOf_map_finalize (l : List SDict) :
    (l.map finalize).map slotOf = l.map slotOf := by
  rw [List.map_map]
  simp [Function.comp, slotOf_finalize]

theorem parse_output_slot_ne {text : String} {d : SDict}
    (hd : d ∈ parse_output text) : slotOf d ≠ "" := by
  unfold parse_output at hd
  split at hd
  · simp at hd
  · obtain ⟨d0, hd0, rfl⟩ := List.mem_map.mp hd
    rw [slotOf_finalize]
    exact (mem_dedupBySlot hd0).1

/-- C4: the final merge of `parse_output` lists the surviving matrix-derived
records first and the surviving plain-block records second, each an
order-preserving selection (the deduplication pass is a sublist of its
input); the emitted slots are pairwise distinct; any slot claimed by a kept
matrix record is absent from the kept plain records (the matrix record
wins); and on the mixed fixture, where both modes claim `bank 3`, only the
matrix `bank 3` record and the plain `bank 4` record are emitted, in that
order. -/
theorem parse_output_merge_spec :
    (∀ text : String, pySplitLines text ≠ [] →
        parse_output text =
          (dedupBySlot [] (matrixDimms text)).map finalize ++
            (dedupBySlot (seenAfter [] (matrixDimms text))
              (plainDimms text)).map finalize)
    ∧ (∀ (seen : List String) (l : List SDict), (dedupBySlot seen l).Sublist l)
    ∧ (∀ text : String, ((parse_output text).map slotOf).Nodup)
    ∧ (∀ text : String, ∀ s : String,
        s ∈ ((dedupBySlot [] (matrixDimms text)).map finalize).map slotOf →
        s ∉ ((dedupBySlot (seenAfter [] (matrixDimms text))
          (plainDimms text)).map finalize).map slotOf)
    ∧ parse_output fixtureMixed =
        [[("module_part_number", "PN-M"), ("Guessing DIMM is in", "bank 3"),
          ("slot", "bank 3"), ("Additional JEDEC Timings malformed", ""),
          ("Malformed Line With Too Many Columns", "")],
         [("module_part_number", "PN-P"), ("Guessing DIMM is in", "bank 4"),
          ("slot", "bank 4"), ("Additional JEDEC Timings malformed", ""),
          ("Malformed Line With Too Many Columns", "")]] := by
  refine ⟨?_, dedupBySlot_sublist, ?_, ?_, rfl⟩
  · intro text h
    unfold parse_output
    rw [if_neg h, dedupBySlot_append, List.map_append]
  · intro text
    unfold parse_output
    split
    · simp
    · rw [map_slotOf_map_finalize]
      exact dedup_slots_nodup _ _
  · intro text s hs hmem
    rw [map_slotOf_map_finalize] at hs hmem
    have hseen : s ∈ seenAfter [] (matrixDimms text) := mem_seenAfter_of_kept hs
    obtain ⟨r, hr, rfl⟩ := List.mem_map.mp hmem
    exact (mem_dedupBySlot hr).2 hseen

/-- Witness for C4: on the mixed fixture the decomposition applies, the
plain scanner produced records for both `bank 3` and `bank 4`, the matrix
produced one `bank 3` record, and `bank 3` is kept on the matrix side while
absent from the kept plain records. -/
theorem parse_output_merge_spec_witness :
    pySplitLines fixtureMixed ≠ []
    ∧ parse_output fixtureMixed =
        (dedupBySlot [] (matrixDimms fixtureMixed)).map finalize ++
          (dedupBySlot (seenAfter [] (matrixDimms fixtureMixed))
            (plainDimms fixtureMixed)).map finalize
    ∧ (plainDimms fixtureMixed).map slotOf = ["bank 3", "bank 4"]
    ∧ (matrixDimms fixtureMixed).map slotOf = ["bank 3"]
    ∧ "bank 3" ∈
        ((dedupBySlot [] (matrixDimms fixtureMixed)).map finalize).map slotOf
    ∧ "bank 3" ∉
        ((dedupBySlot (seenAfter [] (matrixDimms fixtureMixed))
          (plainDimms fixtureMixed)).map finalize).map slotOf := by
  refine ⟨by decide, parse_output_merge_spec.1 fixtureMixed (by decide),
    rfl, rfl, by decide,
    parse_output_merge_spec.2.2.2.1 fixtureMixed "bank 3" (by decide)⟩

/-- C10: every record emitted by `parse_output` carries a non-empty `slot`,
and a parsed record without one (for example a matrix column that never
received a `Guessing DIMM is in` value) is silently dropped: its finalized
form never appears in the output. -/
theorem parse_output_slot_invariant :
    (∀ text : String, ∀ d : SDict, d ∈ parse_output text → slotOf d ≠ "")
    ∧ (∀ text : String, ∀ d0 : SDict, slotOf d0 = "" →
        finalize d0 ∉ parse_output text) := by
  refine ⟨fun text d hd => parse_output_slot_ne hd, fun text d0 h0 hmem => ?_⟩
  exact parse_output_slot_ne hmem (by rw [slotOf_finalize]; exact h0)

/-- Witness for C10: the matrix-only fixture parses one column record with
no slot, and `parse_output` emits nothing for it. -/
theorem parse_output_slot_invariant_witness :
    matrixDimms fixtureMatrixNoSlot = [[("module_part_number", "PNX")]]
    ∧ slotOf [("module_part_number", "PNX")] = ""
    ∧ parse_output fixtureMatrixNoSlot = []
    ∧ finalize [("module_part_number", "PNX")] ∉ parse_output fixtureMatrixNoSlot := by
  refine ⟨rfl, rfl, rfl,
    parse_output_slot_invariant.2 fixtureMatrixNoSlot
      [("module_part_number", "PNX")] rfl⟩

/-! ### Claim C3: slot derivation and block fan-out -/

theorem slotOf_commit_rec (p : SDict) (s : String) :
    slotOf (if (sGet (sSet p "slot" s) "Guessing DIMM is in").isSome
      then sSet (sSet p "slot" s) "Guessing DIMM is in" s
      else sSet p "slot" s) = s := by
  split
  · unfold slotOf sGetD
    rw [sGet_sSet_ne _ (by decide), sGet_sSet_self]
    rfl
  · exact slotOf_sSet_slot p s

/-- Counterexample for C3 as stated: a guess naming banks 1 and 2 together
does not fan out — only the literal `bank 3` / `bank 4` pair does.  The
derivation returns the single first token `bank 1`, and the whole parse of
such a block emits exactly one record. -/
theorem derive_slots_pair_counterexample :
    _derive_slots_from_guess "bank 1 and bank 2" = ["bank 1"]
    ∧ (parse_output fixtureBanks12).map slotOf = ["bank 1"]
    ∧ (parse_output fixtureBanks12).length = 1 := ⟨rfl, rfl, rfl⟩

/-- C3 (amended): the fan-out applies exactly to the literal pair — when the
normalized guess contains both `bank 3` and `bank 4` the derived slots are
`["bank 3", "bank 4"]` in that order; otherwise a first `bank N` / `dimm N`
token becomes the single slot, and failing that the raw value does.
Committing a block with pending fields and the pair of block ids emits
exactly two records whose slots are `bank 3` and `bank 4` respectively,
neither slot string containing the other bank identifier; the
`bank 3 and bank 4` fixture produces exactly those two records. -/
theorem derive_slots_fanout_spec :
    (∀ v : String, pyContains (normalizeSlotString v) "bank 3" = true →
        pyContains (normalizeSlotString v) "bank 4" = true →
        _derive_slots_from_guess v = ["bank 3", "bank 4"])
    ∧ (∀ v : String, ∀ t : List Char,
        ¬(pyContains (normalizeSlotString v) "bank 3" = true ∧
          pyContains (normalizeSlotString v) "bank 4" = true) →
        searchIn matchSlotAt (normalizeSlotString v).data = some t →
        _derive_slots_from_guess v = [String.mk t])
    ∧ (∀ v : String, normalizeSlotString v ≠ "" →
        ¬(pyContains (normalizeSlotString v) "bank 3" = true ∧
          pyContains (normalizeSlotString v) "bank 4" = true) →
        searchIn matchSlotAt (normalizeSlotString v).data = none →
        _derive_slots_from_guess v = [v])
    ∧ (∀ st : PlainState, st.pending ≠ [] → st.blockIds = ["bank 3", "bank 4"] →
        ∃ r1 r2 : SDict, (_commit_block st).plain = st.plain ++ [r1, r2] ∧
          slotOf r1 = "bank 3" ∧ slotOf r2 = "bank 4" ∧
          pyContains (slotOf r1) "bank 4" = false ∧
          pyContains (slotOf r2) "bank 3" = false)
    ∧ (parse_output fixtureBanks34).map slotOf = ["bank 3", "bank 4"]
    ∧ (parse_output fixtureBanks34).length = 2 := by
  refine ⟨?_, ?_, ?_, ?_, rfl, rfl⟩
  · intro v h3 h4
    simp only [_derive_slots_from_guess]
    have hn : ¬normalizeSlotString v = "" := by
      intro he
      rw [he] at h3
      exact absurd h3 (by decide)
    rw [if_neg hn, if_pos ⟨h3, h4⟩]
  · intro v t hb hs
    simp only [_derive_slots_from_guess]
    have hn : ¬normalizeSlotString v = "" := by
      intro he
      rw [he] at hs
      rw [show searchIn matchSlotAt ("" : String).data = none from rfl] at hs
      exact absurd hs (by simp)
    rw [if_neg hn, if_neg hb, hs]
  · intro v hn hb h0
    simp only [_derive_slots_from_guess]
    rw [if_neg hn, if_neg hb, h0]
  · intro st hp hb
    simp only [_commit_block]
    rw [if_neg hp, hb]
    rw [if_neg (by decide : ¬(["bank 3", "bank 4"] : List String) = [])]
    refine ⟨_, _, rfl, slotOf_commit_rec _ _, slotOf_commit_rec _ _, ?_, ?_⟩
    · rw [slotOf_commit_rec]
      decide
    · rw [slotOf_commit_rec]
      decide

/-- Witness for C3 (amended): the pair value fans out to both banks, a
`dimm 2` value derives the single token, an unrecognized value falls back
to itself, and committing the fixture state emits the two per-bank
records. -/
theorem derive_slots_fanout_spec_witness :
    _derive_slots_from_guess "bank 3 and bank 4" = ["bank 3", "bank 4"]
    ∧ _derive_slots_from_guess "dimm 2" = [String.mk ("dimm 2" : String).data]
    ∧ _derive_slots_from_guess "somewhere" = ["somewhere"]
    ∧ (∃ r1 r2 : SDict,
        (_commit_block ⟨true, ["bank 3", "bank 4"],
          [("module_part_number", "EX9")], []⟩).plain = [] ++ [r1, r2] ∧
        slotOf r1 = "bank 3" ∧ slotOf r2 = "bank 4" ∧
        pyContains (slotOf r1) "bank 4" = false ∧
        pyContains (slotOf r2) "bank 3" = false) := by
  refine ⟨derive_slots_fanout_spec.1 "bank 3 and bank 4" (by decide) (by decide),
    derive_slots_fanout_spec.2.1 "dimm 2" ("dimm 2" : String).data
      (by decide) rfl,
    derive_slots_fanout_spec.2.2.1 "somewhere" (by decide) (by decide) rfl,
    derive_slots_fanout_spec.2.2.2.1
      ⟨true, ["bank 3", "bank 4"], [("module_part_number", "EX9")], []⟩
      (by decide) rfl⟩

/-! ### Claim C5: plain-block start markers -/

theorem plainStep_no_header {st : PlainState} {raw : String}
    (hsaw : st.sawHeader = false)
    (hnd : pyStartsWith (String.mk (stripChars (rstripCharsOf '\n' raw.data)))
      "Decoding EEPROM" = false) :
    plainStep st raw = st := by
  simp only [plainStep]
  by_cases he : String.mk (stripChars (rstripCharsOf '\n' raw.data)) = ""
  · rw [if_pos he]
  · rw [if_neg he, if_neg (by rw [hnd]; exact Bool.false_ne_true),
      if_pos (by simp [hsaw])]

theorem plainStep_header {st : PlainState} {raw : String}
    (hd : pyStartsWith (String.mk (stripChars (rstripCharsOf '\n' raw.data)))
      "Decoding EEPROM" = true) :
    plainStep st raw =
      { sawHeader := true, blockIds := [], pending := [],
        plain := (_commit_block st).plain } := by
  have hne : ¬String.mk (stripChars (rstripCharsOf '\n' raw.data)) = "" := by
    intro he
    rw [he] at hd
    exact absurd hd (by decide)
  simp only [plainStep]
  rw [if_neg hne, if_pos hd]

theorem foldl_plainStep_no_header :
    ∀ (lines : List String) (st : PlainState), st.sawHeader = false →
      (∀ raw ∈ lines,
        pyStartsWith (String.mk (stripChars (rstripCharsOf '\n' raw.data)))
          "Decoding EEPROM" = false) →
      lines.foldl plainStep st = st
  | [], _, _, _ => rfl
  | raw :: rest, st, hsaw, hall => by
      rw [List.foldl_cons,
        plainStep_no_header hsaw (hall raw (List.mem_cons_self _ _))]
      exact foldl_plainStep_no_header rest st hsaw
        (fun r hr => hall r (List.mem_cons_of_mem _ hr))

theorem plainDimms_no_header {text : String}
    (h : ∀ raw ∈ pySplitLines text,
      pyStartsWith (String.mk (stripChars (rstripCharsOf '\n' raw.data)))
        "Decoding EEPROM" = false) :
    plainDimms text = [] := by
  unfold plainDimms
  rw [foldl_plainStep_no_header _ _ rfl h]
  rfl

theorem splitStep_marker {st : SplitState} {line : String}
    (h : pyStartsWith (String.mk (lstripChars line.data)) "Decoding EEPROM" = true ∨
      pyStartsWith (String.mk (lstripChars line.data)) "SPD data for" = true) :
    splitStep st line =
      { blocks := (splitFlush st).blocks,
        key := "dimm_" ++ toString (splitFlush st).idx,
        curLines := (splitFlush st).curLines ++ [line],
        idx := (splitFlush st).idx } := by
  simp only [splitStep]
  rw [if_pos h]

/-- Counterexample for C5 as stated: the plain-block scanner of
`parse_output` recognises only `Decoding EEPROM` as a block start.  The same
block introduced by `SPD data for` — a marker that the separate
block-splitting helper does honour — produces no records at all, while the
`Decoding EEPROM` version produces one. -/
theorem plain_spd_marker_counterexample :
    parse_output fixtureSpdHeader = []
    ∧ (parse_output fixtureDecodingHeader).map slotOf = ["bank 3"]
    ∧ pyStartsWith
        (String.mk (stripChars (rstripCharsOf '\n' ("SPD data for ee" : String).data)))
        "SPD data for" = true
    ∧ _split_decode_dimms_blocks fixtureSpdHeader =
        [("dimm_0", "SPD data for ee\nPart Number  EX9\nGuessing DIMM is in  bank 3\n")] :=
  ⟨rfl, rfl, rfl, rfl⟩

/-- C5 (amended): in the plain-block scanner of `parse_output` only a
stripped line beginning with `Decoding EEPROM` starts a block — every other
line, `SPD data for` lines included, is ignored while no header has been
seen, and a text none of whose lines begins with `Decoding EEPROM` yields no
plain records; a `Decoding EEPROM` line commits the previous block and
resets the accumulator; the separate `_split_decode_dimms_blocks` helper, by
contrast, treats both `Decoding EEPROM` and `SPD data for` as block
starts. -/
theorem plain_block_markers_spec :
    (∀ (st : PlainState) (raw : String), st.sawHeader = false →
        pyStartsWith (String.mk (stripChars (rstripCharsOf '\n' raw.data)))
          "Decoding EEPROM" = false →
        plainStep st raw = st)
    ∧ (∀ (st : PlainState) (raw : String),
        pyStartsWith (String.mk (stripChars (rstripCharsOf '\n' raw.data)))
          "Decoding EEPROM" = true →
        plainStep st raw =
          { sawHeader := true, blockIds := [], pending := [],
            plain := (_commit_block st).plain })
    ∧ (∀ text : String,
        (∀ raw ∈ pySplitLines text,
          pyStartsWith (String.mk (stripChars (rstripCharsOf '\n' raw.data)))
            "Decoding EEPROM" = false) →
        plainDimms text = [])
    ∧ (∀ (st : SplitState) (line : String),
        pyStartsWith (String.mk (lstripChars line.data)) "Decoding EEPROM" = true ∨
          pyStartsWith (String.mk (lstripChars line.data)) "SPD data for" = true →
        splitStep st line =
          { blocks := (splitFlush st).blocks,
            key := "dimm_" ++ toString (splitFlush st).idx,
            curLines := (splitFlush st).curLines ++ [line],
            idx := (splitFlush st).idx }) :=
  ⟨fun _ _ hsaw hnd => plainStep_no_header hsaw hnd,
    fun _ _ hd => plainStep_header hd,
    fun _ h => plainDimms_no_header h,
    fun _ _ h => splitStep_marker h⟩

/-- Witness for C5 (amended): concrete instances — the scanner ignores an
`SPD data for` line before any header, a text whose lines never begin with
`Decoding EEPROM` yields no plain records, and the splitting helper starts a
block at the same `SPD data for` line. -/
theorem plain_block_markers_spec_witness :
    plainStep ⟨false, [], [], []⟩ "SPD data for ee" = ⟨false, [], [], []⟩
    ∧ plainDimms fixtureSpdHeader = []
    ∧ splitStep ⟨[], "", [], 0⟩ "SPD data for ee" =
        { blocks := (splitFlush ⟨[], "", [], 0⟩).blocks,
          key := "dimm_" ++ toString (splitFlush ⟨[], "", [], 0⟩).idx,
          curLines := (splitFlush ⟨[], "", [], 0⟩).curLines ++ ["SPD data for ee"],
          idx := (splitFlush ⟨[], "", [], 0⟩).idx }
    ∧ plainStep ⟨false, [], [], []⟩ "Decoding EEPROM ee" =
        { sawHeader := true, blockIds := [], pending := [],
          plain := (_commit_block ⟨false, [], [], []⟩).plain } := by
  refine ⟨plain_block_markers_spec.1 ⟨false, [], [], []⟩ "SPD data for ee"
      rfl (by decide),
    plain_block_markers_spec.2.2.1 fixtureSpdHeader (by decide),
    plain_block_markers_spec.2.2.2 ⟨[], "", [], 0⟩ "SPD data for ee"
      (Or.inr (by decide)),
    plain_block_markers_spec.2.1 ⟨false, [], [], []⟩ "Decoding EEPROM ee"
      (by decide)⟩

end RamSleuth

